import Mathlib

/-!
Shallow embedding of `coursebuilder/models/progress.py`
(`UnitLessonProgressTracker`, the student progress tracker for a
unit/lesson-based linear course), together with proofs about it.

Conventions of the embedding:
* A Python dict from string keys to integers is an association list
  (`PMap`) with first-match lookup and in-place update.
* The raw stored payload of a `StudentPropertyEntity` (`progress.value`,
  an opaque string that `transforms.loads` parses) is `RawVal`; the
  "parsable or absent" fragment that every reachable record stays inside
  is `PVal := Option PMap` (`none` = Python `None`).
* Python exceptions are modelled by `Except PErr`; an early `return`
  inside a method is modelled by the corresponding branch structure.
* All ids that Python pushes through `'%s' % id` string formatting are
  modelled as the resulting strings; the integer block ids produced by
  `range(len(...))` are `Nat` and enter keys via `toString`.
-/

namespace Progress

/-- A parsed progress mapping: a Python dict from string key to integer,
as an association list (first-match lookup, in-place replacing update). -/
abbrev PMap := List (String × Int)

/-- Python dict lookup `d.get(k)` on the parsed progress mapping. -/
def pget : PMap → String → Option Int
  | [], _ => none
  | (k', v) :: rest, k => if k' = k then some v else pget rest k

/-- Python dict assignment `d[k] = v`: replaces the entry in place if the
key is present, appends otherwise. -/
def pset : PMap → String → Int → PMap
  | [], k, v => [(k, v)]
  | (k', v') :: rest, k, v =>
    if k' = k then (k', v) :: rest else (k', v') :: pset rest k v

/-- Python exceptions relevant to the tracker's helpers. -/
inductive PErr
  | assertionError
  | typeError
  | valueError
  | keyError
deriving DecidableEq

/-- The raw stored payload `progress.value` of a student's progress record,
as seen by `transforms.loads`. -/
inductive RawVal
  | absent
  | emptyStr
  | corrupt
  | stored (m : PMap)
deriving DecidableEq

/-- Modelled from the spec: `transforms.loads` (module `transforms` is not
part of the sources here; §6 of the spec specifies "any JSON-like codec
suffices" for (de)serializing the flat string→int mapping).  A JSON-like
`loads` raises `TypeError` on a `None` argument and `ValueError` on a
string that does not parse (whether empty or not), and returns the parsed
mapping on a serialized dict. -/
def loads : RawVal → Except PErr PMap
  | .absent => .error .typeError
  | .emptyStr => .error .valueError
  | .corrupt => .error .valueError
  | .stored m => .ok m

/-- Python truthiness of `progress.value`: `None` and `''` are falsy; any
non-empty string (in particular any serialized dict, at least `"{}"`) is
truthy. -/
def truthy : RawVal → Bool
  | .absent => false
  | .emptyStr => false
  | .corrupt => true
  | .stored _ => true

/-- `UnitLessonProgressTracker._get_entity_value`:
`if not progress.value: return None` then
`return transforms.loads(progress.value).get(event_key)`.
There is no exception handler here: a parse failure on a truthy payload
propagates to the caller. -/
def getEntityValueR (v : RawVal) (k : String) : Except PErr (Option Int) :=
  if truthy v then (loads v).map (fun m => pget m k) else .ok none

/-- `UnitLessonProgressTracker._set_entity_value`: parse the payload
(`AttributeError`/`TypeError` is caught and replaced by the empty dict —
`ValueError` from an unparsable string is NOT caught), set the key, and
re-serialize. -/
def setEntityValueR (v : RawVal) (k : String) (n : Int) : Except PErr RawVal :=
  match loads v with
  | .ok m => .ok (.stored (pset m k n))
  | .error .typeError => .ok (.stored (pset ([] : PMap) k n))
  | .error e => .error e

/-- `UnitLessonProgressTracker._inc` (with the default `value=1`): parse
the payload with the same `except (AttributeError, TypeError)` recovery,
default the key to `0` if missing, add the increment, re-serialize. -/
def incR (v : RawVal) (k : String) (d : Int) : Except PErr RawVal :=
  match loads v with
  | .ok m => .ok (.stored (pset m k ((pget m k).getD 0 + d)))
  | .error .typeError =>
      .ok (.stored (pset ([] : PMap) k ((pget ([] : PMap) k).getD 0 + d)))
  | .error e => .error e

/-- The "parsable or absent" payloads: every record the tracker itself
ever writes is of this fragment (`none` = Python `None`). -/
abbrev PVal := Option PMap

/-- Embedding of the well-formed payloads into the raw payloads. -/
def toRaw : PVal → RawVal
  | none => .absent
  | some m => .stored m

/-- `_get_entity_value` restricted to well-formed payloads (total; agrees
with `getEntityValueR` via `getEntityValueR_toRaw`). -/
def getEntityValue : PVal → String → Option Int
  | none, _ => none
  | some m, k => pget m k

/-- `_set_entity_value` restricted to well-formed payloads (total; agrees
with `setEntityValueR` via `setEntityValueR_toRaw`). -/
def setEntityValue (v : PVal) (k : String) (n : Int) : PVal :=
  some (pset (v.getD []) k n)

/-- `_inc` with its default increment of 1, restricted to well-formed
payloads (total; agrees with `incR` via `incR_toRaw`). -/
def incEntity (v : PVal) (k : String) : PVal :=
  some (pset (v.getD []) k ((pget (v.getD []) k).getD 0 + 1))

/-! ### The key codec -/

/-- Helper for `pySplitDot`: accumulates the current segment (reversed). -/
def splitDotAux : List Char → List Char → List String
  | [], acc => [String.mk acc.reverse]
  | c :: cs, acc =>
    if c = '.' then String.mk acc.reverse :: splitDotAux cs []
    else splitDotAux cs (c :: acc)

/-- Python `s.split('.')` (single-character separator, no limit):
the list of maximal dot-free segments; `"".split('.') == ['']`. -/
def pySplitDot (s : String) : List String := splitDotAux s.data []

/-- Python `'.'.join(xs)`. -/
def pyJoinDot : List String → String
  | [] => ""
  | [s] => s
  | s :: rest => s ++ "." ++ pyJoinDot rest

/-- Composite-state constant `NOT_STARTED_STATE = 0`. -/
def NOT_STARTED_STATE : Int := 0
/-- Composite-state constant `IN_PROGRESS_STATE = 1`. -/
def IN_PROGRESS_STATE : Int := 1
/-- Composite-state constant `COMPLETED_STATE = 2`. -/
def COMPLETED_STATE : Int := 2

/-- The six event-entity names that key `EVENT_CODE_MAPPING` (a closed
set; the class never uses any other entity name). -/
inductive Entity
  | unit
  | lesson
  | video
  | activity
  | block
  | assessment
deriving DecidableEq

/-- `EVENT_CODE_MAPPING`: the single-letter code of each entity kind. -/
def EVENT_CODE_MAPPING : Entity → String
  | .unit => "u"
  | .lesson => "l"
  | .video => "v"
  | .activity => "a"
  | .block => "b"
  | .assessment => "s"

/-- `_get_unit_key(unit_id)`: `'u.<unit_id>'`. -/
def getUnitKey (unitId : String) : String :=
  EVENT_CODE_MAPPING .unit ++ "." ++ unitId

/-- `_get_lesson_key(unit_id, lesson_id)`: `'u.<u>.l.<l>'`. -/
def getLessonKey (unitId lessonId : String) : String :=
  EVENT_CODE_MAPPING .unit ++ "." ++ unitId ++ "." ++
    EVENT_CODE_MAPPING .lesson ++ "." ++ lessonId

/-- `_get_video_key(unit_id, lesson_id, video_id)`: `'u.<u>.l.<l>.v.<v>'`
(the callers always pass the integer `0` for `video_id`). -/
def getVideoKey (unitId lessonId : String) (videoId : Nat) : String :=
  EVENT_CODE_MAPPING .unit ++ "." ++ unitId ++ "." ++
    EVENT_CODE_MAPPING .lesson ++ "." ++ lessonId ++ "." ++
    EVENT_CODE_MAPPING .video ++ "." ++ toString videoId

/-- `_get_activity_key(unit_id, lesson_id, activity_id)`:
`'u.<u>.l.<l>.a.<a>'` (the callers always pass the integer `0`). -/
def getActivityKey (unitId lessonId : String) (activityId : Nat) : String :=
  EVENT_CODE_MAPPING .unit ++ "." ++ unitId ++ "." ++
    EVENT_CODE_MAPPING .lesson ++ "." ++ lessonId ++ "." ++
    EVENT_CODE_MAPPING .activity ++ "." ++ toString activityId

/-- `_get_block_key(unit_id, lesson_id, activity_id, block_id)`:
`'u.<u>.l.<l>.a.<a>.b.<b>'`. -/
def getBlockKey (unitId lessonId : String) (activityId blockId : Nat) : String :=
  EVENT_CODE_MAPPING .unit ++ "." ++ unitId ++ "." ++
    EVENT_CODE_MAPPING .lesson ++ "." ++ lessonId ++ "." ++
    EVENT_CODE_MAPPING .activity ++ "." ++ toString activityId ++ "." ++
    EVENT_CODE_MAPPING .block ++ "." ++ toString blockId

/-- `_get_assessment_key(assessment_id)`: `'s.<assessment_id>'`. -/
def getAssessmentKey (assessmentId : String) : String :=
  EVENT_CODE_MAPPING .assessment ++ "." ++ assessmentId

/-! ### The course collaborators -/

/-- Modelled from the spec: a lesson as returned by the Course Reader's
`getLessons(unitId)` (`course.get_lessons`, not among the sources):
an id (compared against the target via `str(lesson.id) == lesson_id`,
modelled by its string form) and the truthiness of `lesson.activity`. -/
structure Lesson where
  id : String
  activity : Bool
deriving DecidableEq

/-- An entry of the content list `activity['activity']`; the tracker only
tests `isinstance(block, dict)` (interactive) on it. -/
inductive BlockItem
  | dict
  | nondict
deriving DecidableEq

/-- `isinstance(block, dict)`. -/
def isDict : BlockItem → Bool
  | .dict => true
  | .nondict => false

/-- Modelled from the spec: a course unit as returned by the Course
Reader's `getUnits()` (`course.get_units`, not among the sources): its id
and its type string (`'U'` regular, `'A'` assessment, others e.g. links). -/
structure CUnit where
  unit_id : String
  utype : String
deriving DecidableEq

/-- Modelled from the spec: the two collaborator capabilities the tracker
consumes — the Course Reader (`self._get_course().get_units()` /
`.get_lessons(unit_id)`) and the Activity Content Reader
(`verify.Verifier().get_activity_as_python(unit_id, lesson_id)`, of which
only the block list `activity['activity']` is used). Neither is among the
sources here. -/
structure Course where
  getUnits : List CUnit
  getLessons : String → List Lesson
  getActivity : String → String → List BlockItem

/-! ### Status readers -/

/-- `_get_unit_status`. -/
def getUnitStatus (v : PVal) (unitId : String) : Option Int :=
  getEntityValue v (getUnitKey unitId)

/-- `_get_lesson_status`. -/
def getLessonStatus (v : PVal) (unitId lessonId : String) : Option Int :=
  getEntityValue v (getLessonKey unitId lessonId)

/-- `_get_activity_status`. -/
def getActivityStatus (v : PVal) (unitId lessonId : String) : Option Int :=
  getEntityValue v (getActivityKey unitId lessonId 0)

/-- `is_video_completed`: `value is not None and value > 0`. -/
def isVideoCompleted (v : PVal) (unitId lessonId : String) : Bool :=
  match getEntityValue v (getVideoKey unitId lessonId 0) with
  | none => false
  | some n => decide (0 < n)

/-- `is_block_completed`: `value is not None and value > 0`. -/
def isBlockCompleted (v : PVal) (unitId lessonId : String) (blockId : Nat) : Bool :=
  match getEntityValue v (getBlockKey unitId lessonId 0 blockId) with
  | none => false
  | some n => decide (0 < n)

/-- `is_assessment_completed`: `value is not None and value > 0`. -/
def isAssessmentCompleted (v : PVal) (assessmentId : String) : Bool :=
  match getEntityValue v (getAssessmentKey assessmentId) with
  | none => false
  | some n => decide (0 < n)

/-! ### The three derived-update rules -/

/-- The lesson loop of `_update_unit`: `for lesson in lessons:` skip the
ones without an activity, early-return (False) on the first one whose
status is not COMPLETED; True means the loop completed. -/
def unitLessonsOk (v : PVal) (unitId : String) : List Lesson → Bool
  | [] => true
  | L :: rest =>
    if !L.activity then unitLessonsOk v unitId rest
    else if getLessonStatus v unitId L.id = some COMPLETED_STATE then
      unitLessonsOk v unitId rest
    else false

/-- `_update_unit`: the match arm plays the role of
`assert len(split_event_key) == 2` (an `AssertionError` otherwise); the
code then reads segment 1 as the unit id. -/
def updateUnit (c : Course) (v : PVal) (eventKey : String) : Except PErr PVal :=
  match pySplitDot eventKey with
  | [_, unitId] =>
    if getEntityValue v eventKey = some COMPLETED_STATE then .ok v
    else
      let v1 := setEntityValue v eventKey IN_PROGRESS_STATE
      if unitLessonsOk v1 unitId (c.getLessons unitId) then
        .ok (setEntityValue v1 eventKey COMPLETED_STATE)
      else .ok v1
  | _ => .error .assertionError

/-- The lesson loop of `_update_lesson`: for every lesson of the unit
with `str(lesson.id) == lesson_id and lesson.activity`, early-return
(False) unless the activity status (read at the *target* lesson id) is
COMPLETED; True means the loop completed. -/
def lessonsOk (v : PVal) (unitId lessonId : String) : List Lesson → Bool
  | [] => true
  | L :: rest =>
    if L.id == lessonId && L.activity then
      if getActivityStatus v unitId lessonId = some COMPLETED_STATE then
        lessonsOk v unitId lessonId rest
      else false
    else lessonsOk v unitId lessonId rest

/-- `_update_lesson`: the match arm plays the role of
`assert len(split_event_key) == 4`; segments 1 and 3 are the unit and
lesson ids. -/
def updateLesson (c : Course) (v : PVal) (eventKey : String) : Except PErr PVal :=
  match pySplitDot eventKey with
  | [_, unitId, _, lessonId] =>
    if getEntityValue v eventKey = some COMPLETED_STATE then .ok v
    else
      let v1 := setEntityValue v eventKey IN_PROGRESS_STATE
      if lessonsOk v1 unitId lessonId (c.getLessons unitId) then
        .ok (setEntityValue v1 eventKey COMPLETED_STATE)
      else .ok v1
  | _ => .error .assertionError

/-- The block loop of `_update_activity`:
`for block_id in range(len(activity['activity']))`, early-return (False)
on the first `dict` block that is not completed; True means the loop
completed.  The `Nat` argument is the running index. -/
def blocksDone (v : PVal) (unitId lessonId : String) : List BlockItem → Nat → Bool
  | [], _ => true
  | b :: rest, i =>
    match b with
    | .dict =>
      if isBlockCompleted v unitId lessonId i then blocksDone v unitId lessonId rest (i + 1)
      else false
    | .nondict => blocksDone v unitId lessonId rest (i + 1)

/-- `_update_activity`: the match arm plays the role of
`assert len(split_event_key) == 6`; segments 1 and 3 are the unit and
lesson ids. -/
def updateActivity (c : Course) (v : PVal) (eventKey : String) : Except PErr PVal :=
  match pySplitDot eventKey with
  | [_, unitId, _, lessonId, _, _] =>
    if getEntityValue v eventKey = some COMPLETED_STATE then .ok v
    else
      let v1 := setEntityValue v eventKey IN_PROGRESS_STATE
      if blocksDone v1 unitId lessonId (c.getActivity unitId lessonId) 0 then
        .ok (setEntityValue v1 eventKey COMPLETED_STATE)
      else .ok v1
  | _ => .error .assertionError

/-! ### The cascade -/

/-- The domain of `UPDATER_MAPPING` (`activity`, `lesson`, `unit`). -/
def hasUpdater : Entity → Bool
  | .activity => true
  | .lesson => true
  | .unit => true
  | _ => false

/-- `UPDATER_MAPPING[e](self, progress, event_key)`; entities outside the
mapping would raise `KeyError` (never reached: the caller guards with
membership). -/
def UPDATER_MAPPING (c : Course) (e : Entity) (v : PVal) (k : String) :
    Except PErr PVal :=
  match e with
  | .activity => updateActivity c v k
  | .lesson => updateLesson c v k
  | .unit => updateUnit c v k
  | _ => .error .keyError

/-- The `generate_new_id` transform shared by all `DERIVED_EVENTS`
entries: `'.'.join(s.split('.')[:-2])`. -/
def generateNewId (s : String) : String :=
  pyJoinDot ((pySplitDot s).dropLast.dropLast)

/-- `DERIVED_EVENTS`: the parent entity of each kind
(block → activity → lesson → unit; video and assessment have none). -/
def DERIVED_EVENTS : Entity → Option Entity
  | .block => some .activity
  | .activity => some .lesson
  | .lesson => some .unit
  | _ => none

/-- `_update_event`, with explicit fuel for the recursion through
`DERIVED_EVENTS`.  The derivation chain block→activity→lesson→unit has
length ≤ 3, so with fuel 4 (see `updateEvent`) the `0` case is never
reached. -/
def updateEventF (c : Course) : Nat → PVal → Entity → String → Bool → Except PErr PVal
  | 0, v, _, _, _ => .ok v
  | fuel + 1, v, e, k, direct =>
    let step : Except PErr PVal :=
      if direct || !hasUpdater e then
        .ok (if hasUpdater e then setEntityValue v k COMPLETED_STATE else incEntity v k)
      else UPDATER_MAPPING c e v k
    match step with
    | .error err => .error err
    | .ok v1 =>
      match DERIVED_EVENTS e with
      | none => .ok v1
      | some e2 => updateEventF c fuel v1 e2 (generateNewId k) false

/-- `_update_event(student, progress, event_entity, event_key, direct)`. -/
def updateEvent (c : Course) (v : PVal) (e : Entity) (k : String)
    (direct : Bool) : Except PErr PVal :=
  updateEventF c 4 v e k direct

/-- The progress-mapping effect of `_put_event`: the guard
`if event_entity not in self.EVENT_CODE_MAPPING: return` never fires
since every `Entity` has a code; then the cascade runs with
`direct_update=True`.  (The surrounding load/commit is the store layer.) -/
def putEvent (c : Course) (v : PVal) (e : Entity) (k : String) :
    Except PErr PVal :=
  updateEvent c v e k true

/-- `put_video_completed(student, unit_id, lesson_id)`. -/
def putVideoCompleted (c : Course) (v : PVal) (unitId lessonId : String) :
    Except PErr PVal :=
  putEvent c v .video (getVideoKey unitId lessonId 0)

/-- `put_activity_completed(student, unit_id, lesson_id)`. -/
def putActivityCompleted (c : Course) (v : PVal) (unitId lessonId : String) :
    Except PErr PVal :=
  putEvent c v .activity (getActivityKey unitId lessonId 0)

/-- `put_block_completed(student, unit_id, lesson_id, block_id)`. -/
def putBlockCompleted (c : Course) (v : PVal) (unitId lessonId : String)
    (blockId : Nat) : Except PErr PVal :=
  putEvent c v .block (getBlockKey unitId lessonId 0 blockId)

/-- `put_assessment_completed(student, assessment_type)`. -/
def putAssessmentCompleted (c : Course) (v : PVal) (assessmentId : String) :
    Except PErr PVal :=
  putEvent c v .assessment (getAssessmentKey assessmentId)

/-- `put_activity_accessed(student, unit_id, lesson_id)`: if any block of
the activity is a dict (interactive), do nothing at all; otherwise fall
through to `put_activity_completed`. -/
def putActivityAccessed (c : Course) (v : PVal) (unitId lessonId : String) :
    Except PErr PVal :=
  if (c.getActivity unitId lessonId).any isDict then .ok v
  else putActivityCompleted c v unitId lessonId

/-! ### The query API and the store layer -/

/-- Generic Python-dict lookup for result dictionaries. -/
def lookupA {α : Type} : List (String × α) → String → Option α
  | [], _ => none
  | (k', v) :: rest, k => if k' = k then some v else lookupA rest k

/-- Generic Python-dict assignment for result dictionaries. -/
def upsertA {α : Type} : List (String × α) → String → α → List (String × α)
  | [], k, v => [(k, v)]
  | (k', v') :: rest, k, v =>
    if k' = k then (k', v) :: rest else (k', v') :: upsertA rest k v

/-- A value of the dict returned by `get_unit_progress`: a Bool for
assessment-type units, a tri-state integer for regular units. -/
inductive UVal
  | boolVal (b : Bool)
  | intVal (n : Int)
deriving DecidableEq

/-- The unit loop of `get_unit_progress`, accumulating `result`. -/
def getUnitProgressLoop (v : PVal) : List CUnit → List (String × UVal) →
    List (String × UVal)
  | [], result => result
  | u :: rest, result =>
    if u.utype = "A" then
      getUnitProgressLoop v rest
        (upsertA result u.unit_id (.boolVal (isAssessmentCompleted v u.unit_id)))
    else if u.utype = "U" then
      let value : Int := match getUnitStatus v u.unit_id with
        | none => 0
        | some n => n
      getUnitProgressLoop v rest (upsertA result u.unit_id (.intVal value))
    else getUnitProgressLoop v rest result

/-- Modelled from the spec: the per-(student, property) record store
(`StudentPropertyEntity`, not among the sources) as seen for one fixed
student and the fixed property name: either no persisted record, or one
record holding a payload.  Every payload this tracker itself creates or
writes is well-formed, so the store layer carries `PVal`. -/
structure StoreState where
  record : Option PVal

/-- The outcome of a store-level query: the returned dictionary, the
store afterwards, and whether a persisting `put()` happened. -/
structure QueryResult (α : Type) where
  result : α
  store : StoreState
  wrote : Bool

/-- `get_or_create_progress(student)`: fetch the record; if there is
none, create one (modelled from the spec: "value = empty mapping") and
`put()` it immediately. -/
def getOrCreateProgress (s : StoreState) : PVal × StoreState × Bool :=
  match s.record with
  | some r => (r, s, false)
  | none => (some [], { record := some (some []) }, true)

/-- `get_unit_progress(student)` at store level. -/
def getUnitProgress (c : Course) (s : StoreState) :
    QueryResult (List (String × UVal)) :=
  let (r, s1, wrote) := getOrCreateProgress s
  { result := getUnitProgressLoop r c.getUnits [], store := s1, wrote := wrote }

/-- The lesson loop of `get_lesson_progress`, accumulating `result`. -/
def getLessonProgressLoop (v : PVal) (unitId : String) : List Lesson →
    List (String × Int) → List (String × Int)
  | [], result => result
  | L :: rest, result =>
    let value : Int := match getLessonStatus v unitId L.id with
      | none => 0
      | some n => n
    getLessonProgressLoop v unitId rest (upsertA result L.id value)

/-- `get_lesson_progress(student, unit_id)` at store level. -/
def getLessonProgress (c : Course) (s : StoreState) (unitId : String) :
    QueryResult (List (String × Int)) :=
  let (r, s1, wrote) := getOrCreateProgress s
  { result := getLessonProgressLoop r unitId (c.getLessons unitId) [],
    store := s1, wrote := wrote }

/-- The logical reading of key `k` for the student in store state `s`
(no record at all reads like an absent key). -/
def storeReadKey (s : StoreState) (k : String) : Option Int :=
  match s.record with
  | none => none
  | some r => getEntityValue r k

/-! ### Event operations, well-formed ids, invariant -/

/-- One record-event operation of the public mutation API. -/
inductive Op
  | videoCompleted (unitId lessonId : String)
  | activityCompleted (unitId lessonId : String)
  | blockCompleted (unitId lessonId : String) (blockId : Nat)
  | assessmentCompleted (assessmentId : String)
  | activityAccessed (unitId lessonId : String)
deriving DecidableEq

/-- Whether an operation is one of the four `put_X_completed` entry
points (as opposed to `put_activity_accessed`). -/
def Op.isRecordCompleted : Op → Bool
  | .activityAccessed _ _ => false
  | _ => true

/-- The non-composite leaf-counter key an operation increments, if any. -/
def Op.leafKey : Op → Option String
  | .videoCompleted u l => some (getVideoKey u l 0)
  | .blockCompleted u l b => some (getBlockKey u l 0 b)
  | .assessmentCompleted a => some (getAssessmentKey a)
  | _ => none

/-- Apply one public operation to a progress payload. -/
def applyOp (c : Course) (v : PVal) : Op → Except PErr PVal
  | .videoCompleted u l => putVideoCompleted c v u l
  | .activityCompleted u l => putActivityCompleted c v u l
  | .blockCompleted u l b => putBlockCompleted c v u l b
  | .assessmentCompleted a => putAssessmentCompleted c v a
  | .activityAccessed u l => putActivityAccessed c v u l

/-- Apply a sequence of operations (an uncaught exception aborts the
sequence). -/
def applyOps (c : Course) (v : PVal) : List Op → Except PErr PVal
  | [] => .ok v
  | op :: rest =>
    match applyOp c v op with
    | .error e => .error e
    | .ok v1 => applyOps c v1 rest

/-- Whether a key parses as the key of a composite entity: `u.<id>`
(unit), `u.<id>.l.<id>` (lesson) or `u.<id>.l.<id>.a.<id>` (activity). -/
def compositeShape (k : String) : Bool :=
  match pySplitDot k with
  | ["u", _] => true
  | ["u", _, "l", _] => true
  | ["u", _, "l", _, "a", _] => true
  | _ => false

/-- Well-formedness of the (unit, lesson) id pair for the cascading
operations: the keys the cascade builds from the ids split back into
their intended segments (true whenever the ids contain no dot, e.g. for
the integer ids of the callers), and the lesson keys of the unit's
lessons do not collide with the composite keys of the cascade. -/
def goodHier (c : Course) (u l : String) : Bool :=
  decide (pySplitDot (getActivityKey u l 0) = ["u", u, "l", l, "a", "0"]) &&
  decide (pySplitDot (getLessonKey u l) = ["u", u, "l", l]) &&
  decide (pySplitDot (getUnitKey u) = ["u", u]) &&
  decide (generateNewId (getActivityKey u l 0) = getLessonKey u l) &&
  decide (generateNewId (getLessonKey u l) = getUnitKey u) &&
  (List.range (c.getActivity u l).length).all (fun i =>
    decide (pySplitDot (getBlockKey u l 0 i) =
      ["u", u, "l", l, "a", "0", "b", toString i])) &&
  (c.getLessons u).all (fun L =>
    decide (getLessonKey u L.id ≠ getActivityKey u l 0) &&
    decide (getLessonKey u L.id ≠ getUnitKey u))

/-- Well-formedness of one operation's ids (see `goodHier`). -/
def GoodOp (c : Course) : Op → Bool
  | .videoCompleted u l =>
    decide (pySplitDot (getVideoKey u l 0) = ["u", u, "l", l, "v", "0"])
  | .assessmentCompleted a =>
    decide (pySplitDot (getAssessmentKey a) = ["s", a])
  | .activityCompleted u l => goodHier c u l
  | .activityAccessed u l => goodHier c u l
  | .blockCompleted u l b =>
    goodHier c u l &&
    decide (pySplitDot (getBlockKey u l 0 b) =
      ["u", u, "l", l, "a", "0", "b", toString b]) &&
    decide (generateNewId (getBlockKey u l 0 b) = getActivityKey u l 0) &&
    (c.getLessons u).all (fun L =>
      decide (getLessonKey u L.id ≠ getBlockKey u l 0 b))

/-- The data invariant of reachable progress payloads: every stored value
is at least 1 (counters are incremented from a default of 0, composite
states are only ever written as 1 or 2), and the value stored under a
composite-shaped key is at most 2. -/
def ProgressInv (v : PVal) : Prop :=
  ∀ k n, getEntityValue v k = some n → 1 ≤ n ∧ (compositeShape k = true → n ≤ 2)

/-- The integer a stored tri-state reads as (absent = 0 = not started). -/
def ov (o : Option Int) : Int := o.getD 0

/-- The effect pattern of one derived-update rule at its key `k`: every
other key is untouched, and the value at `k` is either unchanged or (when
it was not already 2) written as 1 or 2. -/
def UpdaterStep (v w : PVal) (k : String) : Prop :=
  (∀ k2, k2 ≠ k → getEntityValue w k2 = getEntityValue v k2) ∧
  (getEntityValue w k = getEntityValue v k ∨
    (getEntityValue v k ≠ some 2 ∧
      (getEntityValue w k = some 1 ∨ getEntityValue w k = some 2)))

/-- A small concrete course used to instantiate theorems with hypotheses:
unit 1 is regular with lesson 1 (has an activity with one interactive and
one static block) and lesson 2 (no activity); 'Pre' is an assessment;
unit 9 is neither ('O', e.g. a link). -/
def sampleCourse : Course where
  getUnits := [⟨"1", "U"⟩, ⟨"Pre", "A"⟩, ⟨"9", "O"⟩]
  getLessons := fun u => if u = "1" then [⟨"1", true⟩, ⟨"2", false⟩] else []
  getActivity := fun u l =>
    if u = "1" then (if l = "1" then [.dict, .nondict] else []) else []

/-! ## Theorems -/

theorem getEntityValueR_toRaw (v : PVal) (k : String) :
    getEntityValueR (toRaw v) k = .ok (getEntityValue v k) := by
  cases v <;> rfl

theorem setEntityValueR_toRaw (v : PVal) (k : String) (n : Int) :
    setEntityValueR (toRaw v) k n = .ok (toRaw (setEntityValue v k n)) := by
  cases v <;> rfl

theorem incR_toRaw (v : PVal) (k : String) :
    incR (toRaw v) k 1 = .ok (toRaw (incEntity v k)) := by
  cases v <;> rfl

theorem pget_pset (m : PMap) (k k' : String) (n : Int) :
    pget (pset m k n) k' = if k = k' then some n else pget m k' := by
  induction m with
  | nil => by_cases h : k = k' <;> simp [pset, pget, h]
  | cons hd tl ih =>
    obtain ⟨a, b⟩ := hd
    by_cases hak : a = k
    · subst hak
      by_cases h : a = k' <;> simp [pset, pget, h]
    · by_cases h : a = k'
      · subst h
        simp [pset, pget, hak, Ne.symm hak]
      · simp [pset, pget, hak, h, ih]

theorem pset_same (m : PMap) (k : String) (n : Int) (h : pget m k = some n) :
    pset m k n = m := by
  induction m with
  | nil => simp [pget] at h
  | cons hd tl ih =>
    obtain ⟨a, b⟩ := hd
    by_cases hak : a = k
    · subst hak
      simp [pget] at h
      simp [pset, h]
    · simp [pget, hak] at h
      simp [pset, hak, ih h]

theorem getEntityValue_set (v : PVal) (k k' : String) (n : Int) :
    getEntityValue (setEntityValue v k n) k' =
      if k = k' then some n else getEntityValue v k' := by
  cases v <;> simp [getEntityValue, setEntityValue, pget_pset, pget]

theorem getEntityValue_inc (v : PVal) (k k' : String) :
    getEntityValue (incEntity v k) k' =
      if k = k' then some ((getEntityValue v k).getD 0 + 1)
      else getEntityValue v k' := by
  cases v <;> simp [getEntityValue, incEntity, pget_pset, pget]

theorem setEntityValue_same (v : PVal) (k : String) (n : Int)
    (h : getEntityValue v k = some n) : setEntityValue v k n = v := by
  cases v with
  | none => simp [getEntityValue] at h
  | some m => simp [getEntityValue] at h
              simp [setEntityValue, pset_same m k n h]

theorem key_ne (a b : String) (A B : List String) (h1 : pySplitDot a = A)
    (h2 : pySplitDot b = B) (hAB : A ≠ B) : a ≠ b := by
  intro h
  exact hAB (by rw [← h1, ← h2, h])

theorem blocksDone_congr (v1 v2 : PVal) (u l : String) (bs : List BlockItem)
    (i : Nat)
    (h : ∀ j, j < bs.length →
      isBlockCompleted v1 u l (i + j) = isBlockCompleted v2 u l (i + j)) :
    blocksDone v1 u l bs i = blocksDone v2 u l bs i := by
  induction bs generalizing i with
  | nil => rfl
  | cons b rest ih =>
    have h0 : isBlockCompleted v1 u l i = isBlockCompleted v2 u l i := by
      simpa using h 0 (by simp)
    have hrest : ∀ j, j < rest.length →
        isBlockCompleted v1 u l ((i + 1) + j) = isBlockCompleted v2 u l ((i + 1) + j) := by
      intro j hj
      have e : i + (j + 1) = (i + 1) + j := by omega
      have := h (j + 1) (by simp; omega)
      rwa [e] at this
    cases b with
    | dict => simp [blocksDone, h0, ih (i + 1) hrest]
    | nondict => simp [blocksDone, ih (i + 1) hrest]

theorem blocksDone_eq_true_iff (v : PVal) (u l : String) (bs : List BlockItem)
    (i : Nat) :
    blocksDone v u l bs i = true ↔
      (∀ j b, bs.get? j = some b → isDict b = true →
        isBlockCompleted v u l (i + j) = true) := by
  induction bs generalizing i with
  | nil => simp [blocksDone]
  | cons b rest ih =>
    constructor
    · intro hdone j bj hj hdj
      cases j with
      | zero =>
        have hb : b = bj := by simpa using hj
        subst hb
        cases b with
        | dict =>
          cases hc : isBlockCompleted v u l i with
          | false => simp [blocksDone, hc] at hdone
          | true => simpa using hc
        | nondict => simp [isDict] at hdj
      | succ j' =>
        have hrec : blocksDone v u l rest (i + 1) = true := by
          cases b with
          | dict =>
            cases hc : isBlockCompleted v u l i with
            | false => simp [blocksDone, hc] at hdone
            | true => simpa [blocksDone, hc] using hdone
          | nondict => simpa [blocksDone] using hdone
        have := (ih (i + 1)).mp hrec j' bj (by simpa using hj) hdj
        have e : (i + 1) + j' = i + (j' + 1) := by omega
        rwa [e] at this
    · intro hall
      have hrec : blocksDone v u l rest (i + 1) = true := by
        apply (ih (i + 1)).mpr
        intro j bj hj hdj
        have := hall (j + 1) bj (by simpa using hj) hdj
        have e : i + (j + 1) = (i + 1) + j := by omega
        rwa [e] at this
      cases b with
      | dict =>
        have h0 : isBlockCompleted v u l i = true := by
          simpa using hall 0 .dict (by simp) (by simp [isDict])
        simp [blocksDone, h0, hrec]
      | nondict => simp [blocksDone, hrec]

theorem lessonsOk_congr (v1 v2 : PVal) (u l : String) (Ls : List Lesson)
    (h : getActivityStatus v1 u l = getActivityStatus v2 u l) :
    lessonsOk v1 u l Ls = lessonsOk v2 u l Ls := by
  induction Ls with
  | nil => rfl
  | cons L rest ih =>
    by_cases hm : (L.id == l && L.activity) = true <;>
      simp [lessonsOk, hm, h, ih]

theorem lessonsOk_eq_true_iff (v : PVal) (u l : String) (Ls : List Lesson) :
    lessonsOk v u l Ls = true ↔
      (∀ L ∈ Ls, L.id = l → L.activity = true →
        getActivityStatus v u l = some 2) := by
  induction Ls with
  | nil => simp [lessonsOk]
  | cons L rest ih =>
    by_cases hm : (L.id == l && L.activity) = true
    · obtain ⟨hid, hact⟩ : L.id = l ∧ L.activity = true := by
        simpa [Bool.and_eq_true] using hm
      by_cases hs : getActivityStatus v u l = some 2
      · constructor
        · intro _ L' _ _ _
          exact hs
        · intro hall
          have hrest : lessonsOk v u l rest = true :=
            ih.mpr (fun L' hL' h1 h2 => hall L' (by simp [hL']) h1 h2)
          simpa [lessonsOk, hm, COMPLETED_STATE, hs] using hrest
      · constructor
        · intro hdone
          exfalso
          simp [lessonsOk, hm, COMPLETED_STATE, hs] at hdone
        · intro hall
          exact absurd (hall L (by simp) hid hact) hs
    · have hm' : (L.id == l && L.activity) = false := by
        simpa using hm
      constructor
      · intro hdone L' hL' h1 h2
        rcases List.mem_cons.1 hL' with rfl | hmem
        · exact absurd (by simp [Bool.and_eq_true, h1, h2]) hm
        · have hrest : lessonsOk v u l rest = true := by
            simpa [lessonsOk, hm'] using hdone
          exact ih.mp hrest L' hmem h1 h2
      · intro hall
        have hrest : lessonsOk v u l rest = true :=
          ih.mpr (fun L' hL' h1 h2 => hall L' (by simp [hL']) h1 h2)
        simpa [lessonsOk, hm'] using hrest

theorem unitLessonsOk_congr (v1 v2 : PVal) (u : String) (Ls : List Lesson)
    (h : ∀ L ∈ Ls, getLessonStatus v1 u L.id = getLessonStatus v2 u L.id) :
    unitLessonsOk v1 u Ls = unitLessonsOk v2 u Ls := by
  induction Ls with
  | nil => rfl
  | cons L rest ih =>
    have h0 := h L (by simp)
    have hrest : ∀ L' ∈ rest, getLessonStatus v1 u L'.id = getLessonStatus v2 u L'.id :=
      fun L' hL' => h L' (by simp [hL'])
    by_cases ha : L.activity = true <;> simp [unitLessonsOk, ha, h0, ih hrest]

theorem unitLessonsOk_eq_true_iff (v : PVal) (u : String) (Ls : List Lesson) :
    unitLessonsOk v u Ls = true ↔
      (∀ L ∈ Ls, L.activity = true → getLessonStatus v u L.id = some 2) := by
  induction Ls with
  | nil => simp [unitLessonsOk]
  | cons L rest ih =>
    by_cases ha : L.activity = true
    · by_cases hs : getLessonStatus v u L.id = some 2
      · constructor
        · intro hdone L' hL' h1
          rcases List.mem_cons.1 hL' with rfl | hmem
          · exact hs
          · have hrest : unitLessonsOk v u rest = true := by
              simpa [unitLessonsOk, ha, COMPLETED_STATE, hs] using hdone
            exact ih.mp hrest L' hmem h1
        · intro hall
          have hrest : unitLessonsOk v u rest = true :=
            ih.mpr (fun L' hL' h1 => hall L' (by simp [hL']) h1)
          simpa [unitLessonsOk, ha, COMPLETED_STATE, hs] using hrest
      · constructor
        · intro hdone
          exfalso
          simp [unitLessonsOk, ha, COMPLETED_STATE, hs] at hdone
        · intro hall
          exact absurd (hall L (by simp) ha) hs
    · have ha' : L.activity = false := by
        simpa using ha
      constructor
      · intro hdone L' hL' h1
        rcases List.mem_cons.1 hL' with rfl | hmem
        · exact absurd h1 (by simp [ha'])
        · have hrest : unitLessonsOk v u rest = true := by
            simpa [unitLessonsOk, ha'] using hdone
          exact ih.mp hrest L' hmem h1
      · intro hall
        have hrest : unitLessonsOk v u rest = true :=
          ih.mpr (fun L' hL' h1 => hall L' (by simp [hL']) h1)
        simpa [unitLessonsOk, ha'] using hrest

theorem updateActivity_char (c : Course) (v : PVal) (u l a k : String)
    (hk : pySplitDot k = ["u", u, "l", l, "a", a]) :
    updateActivity c v k =
      if getEntityValue v k = some 2 then .ok v
      else if blocksDone (setEntityValue v k 1) u l (c.getActivity u l) 0 then
        .ok (setEntityValue (setEntityValue v k 1) k 2)
      else .ok (setEntityValue v k 1) := by
  unfold updateActivity
  rw [hk]
  rfl

theorem updateLesson_char (c : Course) (v : PVal) (u l k : String)
    (hk : pySplitDot k = ["u", u, "l", l]) :
    updateLesson c v k =
      if getEntityValue v k = some 2 then .ok v
      else if lessonsOk (setEntityValue v k 1) u l (c.getLessons u) then
        .ok (setEntityValue (setEntityValue v k 1) k 2)
      else .ok (setEntityValue v k 1) := by
  unfold updateLesson
  rw [hk]
  rfl

theorem updateUnit_char (c : Course) (v : PVal) (u k : String)
    (hk : pySplitDot k = ["u", u]) :
    updateUnit c v k =
      if getEntityValue v k = some 2 then .ok v
      else if unitLessonsOk (setEntityValue v k 1) u (c.getLessons u) then
        .ok (setEntityValue (setEntityValue v k 1) k 2)
      else .ok (setEntityValue v k 1) := by
  unfold updateUnit
  rw [hk]
  rfl

/-! ## The claims -/

/-- C1: a derived activity update (`_update_activity` on an activity key)
changes nothing when the stored value is already 2 (COMPLETED); otherwise
it sets the activity to 1 (IN_PROGRESS) and then to 2 exactly when every
interactive block (every dict entry of the activity content) has a stored
counter greater than zero, vacuously so with zero interactive blocks. -/
theorem c1_update_activity_rule (c : Course) (v : PVal) (u l a k : String)
    (hk : pySplitDot k = ["u", u, "l", l, "a", a])
    (hbk : ∀ i, i < (c.getActivity u l).length → getBlockKey u l 0 i ≠ k) :
    (getEntityValue v k = some 2 → updateActivity c v k = .ok v) ∧
    (getEntityValue v k ≠ some 2 →
      ∃ w, updateActivity c v k = .ok w ∧
        (∀ k2, k2 ≠ k → getEntityValue w k2 = getEntityValue v k2) ∧
        (getEntityValue w k = some 1 ∨ getEntityValue w k = some 2) ∧
        (getEntityValue w k = some 2 ↔
          (∀ j b, (c.getActivity u l).get? j = some b → isDict b = true →
            isBlockCompleted v u l j = true))) := by
  have hchar := updateActivity_char c v u l a k hk
  constructor
  · intro h2
    rw [hchar, if_pos h2]
  · intro h2
    rw [hchar, if_neg h2]
    have hcong : blocksDone (setEntityValue v k 1) u l (c.getActivity u l) 0 =
        blocksDone v u l (c.getActivity u l) 0 := by
      apply blocksDone_congr
      intro j hj
      unfold isBlockCompleted
      rw [getEntityValue_set, if_neg]
      intro he
      exact hbk (0 + j) (by simpa using hj) he.symm
    rw [hcong]
    cases hdone : blocksDone v u l (c.getActivity u l) 0 with
    | true =>
      rw [if_pos rfl]
      refine ⟨_, rfl, ?_, ?_, ?_⟩
      · intro k2 hk2
        rw [getEntityValue_set, if_neg (fun he => hk2 he.symm),
          getEntityValue_set, if_neg (fun he => hk2 he.symm)]
      · right
        rw [getEntityValue_set, if_pos rfl]
      · rw [getEntityValue_set, if_pos rfl]
        simp only [true_iff, iff_true]
        intro j b hj hb
        have := (blocksDone_eq_true_iff v u l (c.getActivity u l) 0).mp hdone j b hj hb
        simpa using this
    | false =>
      rw [if_neg (by simp)]
      refine ⟨_, rfl, ?_, ?_, ?_⟩
      · intro k2 hk2
        rw [getEntityValue_set, if_neg (fun he => hk2 he.symm)]
      · left
        rw [getEntityValue_set, if_pos rfl]
      · rw [getEntityValue_set, if_pos rfl]
        constructor
        · intro h
          exact absurd h (by simp)
        · intro hall
          exfalso
          have : blocksDone v u l (c.getActivity u l) 0 = true := by
            apply (blocksDone_eq_true_iff v u l (c.getActivity u l) 0).mpr
            intro j b hj hb
            simpa using hall j b hj hb
          rw [this] at hdone
          simp at hdone

/-- Witness for C1 on the sample course: unit 1, lesson 1, activity key
`u.1.l.1.a.0`, empty progress; the interactive block 0 is not completed,
so the activity ends at 1, not 2. -/
theorem c1_witness :
    pySplitDot "u.1.l.1.a.0" = ["u", "1", "l", "1", "a", "0"] ∧
    (∀ i, i < (sampleCourse.getActivity "1" "1").length →
      getBlockKey "1" "1" 0 i ≠ "u.1.l.1.a.0") ∧
    ((getEntityValue none "u.1.l.1.a.0" = some 2 →
      updateActivity sampleCourse none "u.1.l.1.a.0" = .ok none) ∧
    (getEntityValue none "u.1.l.1.a.0" ≠ some 2 →
      ∃ w, updateActivity sampleCourse none "u.1.l.1.a.0" = .ok w ∧
        (∀ k2, k2 ≠ "u.1.l.1.a.0" →
          getEntityValue w k2 = getEntityValue none k2) ∧
        (getEntityValue w "u.1.l.1.a.0" = some 1 ∨
          getEntityValue w "u.1.l.1.a.0" = some 2) ∧
        (getEntityValue w "u.1.l.1.a.0" = some 2 ↔
          (∀ j b, (sampleCourse.getActivity "1" "1").get? j = some b →
            isDict b = true → isBlockCompleted none "1" "1" j = true)))) :=
  ⟨by decide, by decide,
    c1_update_activity_rule sampleCourse none "1" "1" "0" "u.1.l.1.a.0"
      (by decide) (by decide)⟩

/-- C2: a derived unit update (`_update_unit` on a unit key) changes
nothing when the stored value is already 2; otherwise it sets the unit to
1 and then to 2 exactly when every activity-bearing lesson of the unit
has stored lesson status 2 (lessons without an activity are skipped, so
they never prevent completion; vacuously 2 when no lesson qualifies). -/
theorem c2_update_unit_rule (c : Course) (v : PVal) (u k : String)
    (hk : pySplitDot k = ["u", u])
    (hlk : ∀ L ∈ c.getLessons u, getLessonKey u L.id ≠ k) :
    (getEntityValue v k = some 2 → updateUnit c v k = .ok v) ∧
    (getEntityValue v k ≠ some 2 →
      ∃ w, updateUnit c v k = .ok w ∧
        (∀ k2, k2 ≠ k → getEntityValue w k2 = getEntityValue v k2) ∧
        (getEntityValue w k = some 1 ∨ getEntityValue w k = some 2) ∧
        (getEntityValue w k = some 2 ↔
          (∀ L ∈ c.getLessons u, L.activity = true →
            getLessonStatus v u L.id = some 2))) := by
  have hchar := updateUnit_char c v u k hk
  constructor
  · intro h2
    rw [hchar, if_pos h2]
  · intro h2
    rw [hchar, if_neg h2]
    have hcong : unitLessonsOk (setEntityValue v k 1) u (c.getLessons u) =
        unitLessonsOk v u (c.getLessons u) := by
      apply unitLessonsOk_congr
      intro L hL
      unfold getLessonStatus
      rw [getEntityValue_set, if_neg]
      intro he
      exact hlk L hL he.symm
    rw [hcong]
    cases hdone : unitLessonsOk v u (c.getLessons u) with
    | true =>
      rw [if_pos rfl]
      refine ⟨_, rfl, ?_, ?_, ?_⟩
      · intro k2 hk2
        rw [getEntityValue_set, if_neg (fun he => hk2 he.symm),
          getEntityValue_set, if_neg (fun he => hk2 he.symm)]
      · right
        rw [getEntityValue_set, if_pos rfl]
      · rw [getEntityValue_set, if_pos rfl]
        simp only [true_iff, iff_true]
        exact (unitLessonsOk_eq_true_iff v u (c.getLessons u)).mp hdone
    | false =>
      rw [if_neg (by simp)]
      refine ⟨_, rfl, ?_, ?_, ?_⟩
      · intro k2 hk2
        rw [getEntityValue_set, if_neg (fun he => hk2 he.symm)]
      · left
        rw [getEntityValue_set, if_pos rfl]
      · rw [getEntityValue_set, if_pos rfl]
        constructor
        · intro h
          exact absurd h (by simp)
        · intro hall
          exfalso
          rw [(unitLessonsOk_eq_true_iff v u (c.getLessons u)).mpr hall] at hdone
          simp at hdone

/-- Witness for C2 on the sample course: unit key `u.1`, progress in
which lesson 1 (the only activity-bearing lesson) is completed, so the
unit reaches 2 although lesson 2 has no activity and no status. -/
theorem c2_witness :
    pySplitDot "u.1" = ["u", "1"] ∧
    (∀ L ∈ sampleCourse.getLessons "1", getLessonKey "1" L.id ≠ "u.1") ∧
    ((getEntityValue (some [("u.1.l.1", 2)]) "u.1" = some 2 →
      updateUnit sampleCourse (some [("u.1.l.1", 2)]) "u.1" =
        .ok (some [("u.1.l.1", 2)])) ∧
    (getEntityValue (some [("u.1.l.1", 2)]) "u.1" ≠ some 2 →
      ∃ w, updateUnit sampleCourse (some [("u.1.l.1", 2)]) "u.1" = .ok w ∧
        (∀ k2, k2 ≠ "u.1" →
          getEntityValue w k2 = getEntityValue (some [("u.1.l.1", 2)]) k2) ∧
        (getEntityValue w "u.1" = some 1 ∨ getEntityValue w "u.1" = some 2) ∧
        (getEntityValue w "u.1" = some 2 ↔
          (∀ L ∈ sampleCourse.getLessons "1", L.activity = true →
            getLessonStatus (some [("u.1.l.1", 2)]) "1" L.id = some 2)))) :=
  ⟨by decide, by decide,
    c2_update_unit_rule sampleCourse (some [("u.1.l.1", 2)]) "1" "u.1"
      (by decide) (by decide)⟩

/-- C3: a derived lesson update (`_update_lesson` on a lesson key) where
the lesson is not already at 2 first sets the lesson to 1; if some lesson
of the unit's lesson list matches the target lesson id (string
comparison) and has an activity, the value becomes 2 exactly when the
activity's stored status is 2; if no listed lesson matches with an
activity — including when the id never matches any entry — the loop
falls through and the value becomes 2. -/
theorem c3_update_lesson_rule (c : Course) (v : PVal) (u l k : String)
    (hk : pySplitDot k = ["u", u, "l", l])
    (hak : getActivityKey u l 0 ≠ k)
    (h2 : getEntityValue v k ≠ some 2) :
    ∃ w, updateLesson c v k = .ok w ∧
      (∀ k2, k2 ≠ k → getEntityValue w k2 = getEntityValue v k2) ∧
      (getEntityValue w k = some 1 ∨ getEntityValue w k = some 2) ∧
      ((∃ L ∈ c.getLessons u, L.id = l ∧ L.activity = true) →
        (getEntityValue w k = some 2 ↔ getActivityStatus v u l = some 2)) ∧
      (¬(∃ L ∈ c.getLessons u, L.id = l ∧ L.activity = true) →
        getEntityValue w k = some 2) := by
  have hchar := updateLesson_char c v u l k hk
  rw [hchar, if_neg h2]
  have hcong : lessonsOk (setEntityValue v k 1) u l (c.getLessons u) =
      lessonsOk v u l (c.getLessons u) := by
    apply lessonsOk_congr
    unfold getActivityStatus
    rw [getEntityValue_set, if_neg (fun he => hak he.symm)]
  rw [hcong]
  cases hdone : lessonsOk v u l (c.getLessons u) with
  | true =>
    rw [if_pos rfl]
    refine ⟨_, rfl, ?_, ?_, ?_, ?_⟩
    · intro k2 hk2
      rw [getEntityValue_set, if_neg (fun he => hk2 he.symm),
        getEntityValue_set, if_neg (fun he => hk2 he.symm)]
    · right
      rw [getEntityValue_set, if_pos rfl]
    · intro hm
      rw [getEntityValue_set, if_pos rfl]
      simp only [true_iff, iff_true]
      obtain ⟨L, hL, hid, hact⟩ := hm
      exact (lessonsOk_eq_true_iff v u l (c.getLessons u)).mp hdone L hL hid hact
    · intro _
      rw [getEntityValue_set, if_pos rfl]
  | false =>
    rw [if_neg (by simp)]
    have hne : ¬(∀ L ∈ c.getLessons u, L.id = l → L.activity = true →
        getActivityStatus v u l = some 2) := by
      intro hall
      rw [(lessonsOk_eq_true_iff v u l (c.getLessons u)).mpr hall] at hdone
      simp at hdone
    refine ⟨_, rfl, ?_, ?_, ?_, ?_⟩
    · intro k2 hk2
      rw [getEntityValue_set, if_neg (fun he => hk2 he.symm)]
    · left
      rw [getEntityValue_set, if_pos rfl]
    · intro hm
      rw [getEntityValue_set, if_pos rfl]
      constructor
      · intro h
        exact absurd h (by simp)
      · intro hs
        exact absurd (fun L hL h1 h2 => hs) hne
    · intro hm
      exfalso
      apply hne
      intro L hL hid hact
      exact absurd ⟨L, hL, hid, hact⟩ hm

/-- Witness for C3 on the sample course: lesson key `u.1.l.7` whose id 7
matches no listed lesson of unit 1, with empty progress: the loop falls
through and the lesson is promoted to 2. -/
theorem c3_witness :
    pySplitDot "u.1.l.7" = ["u", "1", "l", "7"] ∧
    getActivityKey "1" "7" 0 ≠ "u.1.l.7" ∧
    getEntityValue none "u.1.l.7" ≠ some 2 ∧
    (∃ w, updateLesson sampleCourse none "u.1.l.7" = .ok w ∧
      (∀ k2, k2 ≠ "u.1.l.7" → getEntityValue w k2 = getEntityValue none k2) ∧
      (getEntityValue w "u.1.l.7" = some 1 ∨
        getEntityValue w "u.1.l.7" = some 2) ∧
      ((∃ L ∈ sampleCourse.getLessons "1", L.id = "7" ∧ L.activity = true) →
        (getEntityValue w "u.1.l.7" = some 2 ↔
          getActivityStatus none "1" "7" = some 2)) ∧
      (¬(∃ L ∈ sampleCourse.getLessons "1", L.id = "7" ∧ L.activity = true) →
        getEntityValue w "u.1.l.7" = some 2)) :=
  ⟨by decide, by decide, by decide,
    c3_update_lesson_rule sampleCourse none "1" "7" "u.1.l.7"
      (by decide) (by decide) (by decide)⟩

/-- C6: `put_activity_accessed` with an activity whose block list has no
dict (interactive) entry performs exactly the update of
`put_activity_completed` on the same unit/lesson; with at least one
interactive block it changes nothing. -/
theorem c6_activity_accessed (c : Course) (v : PVal) (u l : String) :
    ((c.getActivity u l).any isDict = false →
      putActivityAccessed c v u l = putActivityCompleted c v u l) ∧
    ((c.getActivity u l).any isDict = true →
      putActivityAccessed c v u l = .ok v) := by
  constructor
  · intro h
    simp [putActivityAccessed, h]
  · intro h
    simp [putActivityAccessed, h]

/-- Witness for C6 on the sample course: lesson 2's activity content is
empty (auto-complete case) and lesson 1's contains a dict (no-op case). -/
theorem c6_witness :
    (sampleCourse.getActivity "1" "2").any isDict = false ∧
    putActivityAccessed sampleCourse none "1" "2" =
      putActivityCompleted sampleCourse none "1" "2" ∧
    (sampleCourse.getActivity "1" "1").any isDict = true ∧
    putActivityAccessed sampleCourse none "1" "1" = .ok none :=
  ⟨by decide,
    (c6_activity_accessed sampleCourse none "1" "2").1 (by decide),
    by decide,
    (c6_activity_accessed sampleCourse none "1" "1").2 (by decide)⟩

/-- C8: `put_video_completed` and `put_assessment_completed` only
increment their own leaf counter (by 1, from a default of 0 when the key
is absent); every other key — in particular every composite tri-state —
reads the same afterwards, and no cascade runs (video and assessment
have no entry in `DERIVED_EVENTS`). -/
theorem c8_leaf_events_frame (c : Course) (v : PVal) (u l aid : String) :
    (putVideoCompleted c v u l = .ok (incEntity v (getVideoKey u l 0)) ∧
      ∀ k, getEntityValue (incEntity v (getVideoKey u l 0)) k =
        if getVideoKey u l 0 = k then
          some ((getEntityValue v (getVideoKey u l 0)).getD 0 + 1)
        else getEntityValue v k) ∧
    (putAssessmentCompleted c v aid = .ok (incEntity v (getAssessmentKey aid)) ∧
      ∀ k, getEntityValue (incEntity v (getAssessmentKey aid)) k =
        if getAssessmentKey aid = k then
          some ((getEntityValue v (getAssessmentKey aid)).getD 0 + 1)
        else getEntityValue v k) := by
  refine ⟨⟨rfl, ?_⟩, ⟨rfl, ?_⟩⟩ <;> intro k <;> rw [getEntityValue_inc]

/-- Counterexample to C9: a non-empty unparsable stored payload is not
recovered to an empty mapping — the parse error surfaces both from the
lookup (`_get_entity_value` has no handler) and from the mutations
(`_set_entity_value`/`_inc` catch only `AttributeError`/`TypeError`,
not the `ValueError` of an unparsable string). -/
theorem c9_counterexample :
    getEntityValueR RawVal.corrupt "u.1" = .error PErr.valueError ∧
    setEntityValueR RawVal.corrupt "u.1" 2 = .error PErr.valueError ∧
    incR RawVal.corrupt "u.1" 1 = .error PErr.valueError :=
  ⟨rfl, rfl, rfl⟩

/-- C9 amended: an absent (`None`) stored value is treated exactly as an
empty mapping by lookups and mutations, with no error surfaced; an empty
unparsable string reads as absent on lookup but surfaces `ValueError` on
mutation; a non-empty unparsable string surfaces `ValueError` on both
lookup and mutation. -/
theorem c9_payload_handling (k : String) (n d : Int) :
    (getEntityValueR .absent k = .ok none ∧
      setEntityValueR .absent k n = .ok (.stored (pset [] k n)) ∧
      incR .absent k d = .ok (.stored (pset [] k ((pget [] k).getD 0 + d)))) ∧
    (getEntityValueR .emptyStr k = .ok none ∧
      setEntityValueR .emptyStr k n = .error .valueError ∧
      incR .emptyStr k d = .error .valueError) ∧
    (getEntityValueR .corrupt k = .error .valueError ∧
      setEntityValueR .corrupt k n = .error .valueError ∧
      incR .corrupt k d = .error .valueError) :=
  ⟨⟨rfl, rfl, rfl⟩, ⟨rfl, rfl, rfl⟩, ⟨rfl, rfl, rfl⟩⟩

theorem lookupA_upsertA {α : Type} (m : List (String × α)) (k k' : String)
    (v : α) :
    lookupA (upsertA m k v) k' = if k = k' then some v else lookupA m k' := by
  induction m with
  | nil => by_cases h : k = k' <;> simp [upsertA, lookupA, h]
  | cons hd tl ih =>
    obtain ⟨a, b⟩ := hd
    by_cases hak : a = k
    · subst hak
      by_cases h : a = k' <;> simp [upsertA, lookupA, h]
    · by_cases h : a = k'
      · subst h
        simp [upsertA, lookupA, hak, Ne.symm hak]
      · simp [upsertA, lookupA, hak, h, ih]

theorem getUnitProgressLoop_mem (v : PVal) (units : List CUnit)
    (acc : List (String × UVal)) (uid : String) :
    (lookupA (getUnitProgressLoop v units acc) uid).isSome = true ↔
      ((lookupA acc uid).isSome = true ∨
        ∃ U ∈ units, U.unit_id = uid ∧ (U.utype = "A" ∨ U.utype = "U")) := by
  induction units generalizing acc with
  | nil => simp [getUnitProgressLoop]
  | cons U rest ih =>
    by_cases hA : U.utype = "A"
    · rw [show getUnitProgressLoop v (U :: rest) acc = getUnitProgressLoop v
        rest (upsertA acc U.unit_id (.boolVal (isAssessmentCompleted v U.unit_id)))
        from by simp [getUnitProgressLoop, hA]]
      rw [ih, lookupA_upsertA]
      by_cases hid : U.unit_id = uid
      · simp only [hid, if_pos rfl, Option.isSome_some]
        constructor
        · intro _
          right
          exact ⟨U, by simp, hid, Or.inl hA⟩
        · intro _
          left
          rfl
      · rw [if_neg hid]
        constructor
        · rintro (h | ⟨U', hU', h1, h2⟩)
          · exact Or.inl h
          · exact Or.inr ⟨U', by simp [hU'], h1, h2⟩
        · rintro (h | ⟨U', hU', h1, h2⟩)
          · exact Or.inl h
          · rcases List.mem_cons.1 hU' with rfl | hmem
            · exact absurd h1 hid
            · exact Or.inr ⟨U', hmem, h1, h2⟩
    · by_cases hU : U.utype = "U"
      · rw [show getUnitProgressLoop v (U :: rest) acc = getUnitProgressLoop v
          rest (upsertA acc U.unit_id (.intVal (match getUnitStatus v U.unit_id with
            | none => 0 | some n => n)))
          from by simp [getUnitProgressLoop, hA, hU]]
        rw [ih, lookupA_upsertA]
        by_cases hid : U.unit_id = uid
        · simp only [hid, if_pos rfl, Option.isSome_some]
          constructor
          · intro _
            right
            exact ⟨U, by simp, hid, Or.inr hU⟩
          · intro _
            left
            rfl
        · rw [if_neg hid]
          constructor
          · rintro (h | ⟨U', hU', h1, h2⟩)
            · exact Or.inl h
            · exact Or.inr ⟨U', by simp [hU'], h1, h2⟩
          · rintro (h | ⟨U', hU', h1, h2⟩)
            · exact Or.inl h
            · rcases List.mem_cons.1 hU' with rfl | hmem
              · exact absurd h1 hid
              · exact Or.inr ⟨U', hmem, h1, h2⟩
      · rw [show getUnitProgressLoop v (U :: rest) acc =
          getUnitProgressLoop v rest acc from by simp [getUnitProgressLoop, hA, hU]]
        rw [ih]
        constructor
        · rintro (h | ⟨U', hU', h1, h2⟩)
          · exact Or.inl h
          · exact Or.inr ⟨U', by simp [hU'], h1, h2⟩
        · rintro (h | ⟨U', hU', h1, h2⟩)
          · exact Or.inl h
          · rcases List.mem_cons.1 hU' with rfl | hmem
            · rcases h2 with h2 | h2
              · exact absurd h2 hA
              · exact absurd h2 hU
            · exact Or.inr ⟨U', hmem, h1, h2⟩

/-- C10: the dict returned by `get_unit_progress` has an entry under a
unit id exactly when some course unit with that id has type 'A' or 'U';
units of any other type (e.g. links) contribute no entry at all. -/
theorem c10_unit_progress_domain (c : Course) (s : StoreState) (uid : String) :
    (lookupA (getUnitProgress c s).result uid).isSome = true ↔
      ∃ U ∈ c.getUnits, U.unit_id = uid ∧ (U.utype = "A" ∨ U.utype = "U") := by
  cases hs : s.record with
  | none =>
    rw [show (getUnitProgress c s).result =
      getUnitProgressLoop (some []) c.getUnits [] from by
        simp [getUnitProgress, getOrCreateProgress, hs]]
    rw [getUnitProgressLoop_mem]
    simp [lookupA]
  | some r =>
    rw [show (getUnitProgress c s).result =
      getUnitProgressLoop r c.getUnits [] from by
        simp [getUnitProgress, getOrCreateProgress, hs]]
    rw [getUnitProgressLoop_mem]
    simp [lookupA]

/-- Counterexample to C7: on a store holding no record for the student,
`get_unit_progress` performs a persisting write — `get_or_create_progress`
creates the missing record and `put()`s it immediately, so the claim
"never perform a persisting write" fails. -/
theorem c7_counterexample :
    (getUnitProgress sampleCourse { record := none }).wrote = true := rfl

/-- C7 amended: the queries never change the logical progress mapping
(every key reads the same value before and after), and when the student
already has a record they leave the store untouched and perform no
write; when there is no record, they perform exactly one persisting
write, creating a record whose mapping is empty (every key still reads
as absent).  The `is_video/block/assessment_completed` checks take the
already-loaded payload and are pure reads by construction. -/
theorem c7_queries_readonly (c : Course) (s : StoreState) (u : String) :
    (∀ k, storeReadKey (getUnitProgress c s).store k = storeReadKey s k) ∧
    (∀ k, storeReadKey (getLessonProgress c s u).store k = storeReadKey s k) ∧
    (∀ r, s.record = some r →
      (getUnitProgress c s).store = s ∧ (getUnitProgress c s).wrote = false ∧
      (getLessonProgress c s u).store = s ∧
      (getLessonProgress c s u).wrote = false) ∧
    (s.record = none →
      (getUnitProgress c s).wrote = true ∧
      (getUnitProgress c s).store = { record := some (some []) } ∧
      (∀ k, getEntityValue (some []) k = none)) := by
  cases hs : s.record with
  | none =>
    refine ⟨?_, ?_, ?_, ?_⟩
    · intro k
      simp [getUnitProgress, getOrCreateProgress, hs, storeReadKey,
        getEntityValue, pget]
    · intro k
      simp [getLessonProgress, getOrCreateProgress, hs, storeReadKey,
        getEntityValue, pget]
    · intro r hr
      simp at hr
    · intro _
      refine ⟨?_, ?_, ?_⟩
      · simp [getUnitProgress, getOrCreateProgress, hs]
      · simp [getUnitProgress, getOrCreateProgress, hs]
      · intro k
        simp [getEntityValue, pget]
  | some r =>
    have hstore : s = { record := some r } := by
      cases s
      simp at hs
      simp [hs]
    refine ⟨?_, ?_, ?_, ?_⟩
    · intro k
      simp [getUnitProgress, getOrCreateProgress, hs, hstore]
    · intro k
      simp [getLessonProgress, getOrCreateProgress, hs, hstore]
    · intro r' hr'
      refine ⟨?_, ?_, ?_, ?_⟩ <;>
        simp [getUnitProgress, getLessonProgress, getOrCreateProgress, hs, hstore]
    · intro h
      simp at h

/-! ### Cascade decomposition and step lemmas -/

theorem except_bind_ok (x : Except PErr PVal) (f : PVal → Except PErr PVal)
    (w : PVal) (h : x.bind f = .ok w) : ∃ a, x = .ok a ∧ f a = .ok w := by
  cases x with
  | error e => exact absurd h (by simp [Except.bind])
  | ok a => exact ⟨a, rfl, by simpa [Except.bind] using h⟩

/-- The one-step equation of `_update_event` (with fuel). -/
theorem updateEventF_succ (c : Course) (fuel : Nat) (v : PVal) (e : Entity)
    (k : String) (direct : Bool) :
    updateEventF c (fuel + 1) v e k direct =
      match (if direct || !hasUpdater e then
          Except.ok (if hasUpdater e then setEntityValue v k COMPLETED_STATE
            else incEntity v k)
        else UPDATER_MAPPING c e v k) with
      | .error err => .error err
      | .ok v1 =>
        match DERIVED_EVENTS e with
        | none => .ok v1
        | some e2 => updateEventF c fuel v1 e2 (generateNewId k) false := rfl

/-- Unfolding of the cascade for a direct activity event:
set the activity key to 2, then run `_update_lesson` and `_update_unit`
on the derived keys. -/
theorem putActivity_eq (c : Course) (v : PVal) (u l : String)
    (g1 : generateNewId (getActivityKey u l 0) = getLessonKey u l)
    (g2 : generateNewId (getLessonKey u l) = getUnitKey u) :
    putActivityCompleted c v u l =
      (updateLesson c (setEntityValue v (getActivityKey u l 0) 2)
        (getLessonKey u l)).bind
        (fun w => updateUnit c w (getUnitKey u)) := by
  have e4 : putActivityCompleted c v u l =
      updateEventF c 4 v .activity (getActivityKey u l 0) true := rfl
  rw [e4, show (4 : Nat) = 3 + 1 from rfl, updateEventF_succ]
  simp only [hasUpdater, DERIVED_EVENTS, UPDATER_MAPPING, COMPLETED_STATE,
    Bool.not_true, Bool.true_or, Bool.or_false, eq_self_iff_true, if_true]
  rw [g1, show (3 : Nat) = 2 + 1 from rfl, updateEventF_succ]
  simp only [hasUpdater, DERIVED_EVENTS, UPDATER_MAPPING, COMPLETED_STATE,
    Bool.not_true, Bool.or_false, Bool.false_eq_true, eq_self_iff_true,
    if_true, if_false]
  rw [g2]
  cases hres : updateLesson c (setEntityValue v (getActivityKey u l 0) 2)
      (getLessonKey u l) with
  | error e => simp [Except.bind]
  | ok w2 =>
    simp only [Except.bind]
    rw [show (2 : Nat) = 1 + 1 from rfl, updateEventF_succ]
    simp only [hasUpdater, DERIVED_EVENTS, UPDATER_MAPPING, COMPLETED_STATE,
      Bool.not_true, Bool.or_false, Bool.false_eq_true, eq_self_iff_true,
      if_true, if_false]
    cases hx : updateUnit c w2 (getUnitKey u) <;> rfl

/-- Unfolding of the cascade for a block event: increment the block
counter, then run the three derived updates upward. -/
theorem putBlock_eq (c : Course) (v : PVal) (u l : String) (b : Nat)
    (g0 : generateNewId (getBlockKey u l 0 b) = getActivityKey u l 0)
    (g1 : generateNewId (getActivityKey u l 0) = getLessonKey u l)
    (g2 : generateNewId (getLessonKey u l) = getUnitKey u) :
    putBlockCompleted c v u l b =
      (updateActivity c (incEntity v (getBlockKey u l 0 b))
        (getActivityKey u l 0)).bind
        (fun w2 => (updateLesson c w2 (getLessonKey u l)).bind
          (fun w3 => updateUnit c w3 (getUnitKey u))) := by
  have e4 : putBlockCompleted c v u l b =
      updateEventF c 4 v .block (getBlockKey u l 0 b) true := rfl
  rw [e4, show (4 : Nat) = 3 + 1 from rfl, updateEventF_succ]
  simp only [hasUpdater, DERIVED_EVENTS, UPDATER_MAPPING, COMPLETED_STATE,
    Bool.not_false, Bool.true_or, Bool.or_false, eq_self_iff_true, if_true,
    Bool.false_eq_true, if_false]
  rw [g0, show (3 : Nat) = 2 + 1 from rfl, updateEventF_succ]
  simp only [hasUpdater, DERIVED_EVENTS, UPDATER_MAPPING, COMPLETED_STATE,
    Bool.not_true, Bool.or_false, Bool.false_eq_true, eq_self_iff_true,
    if_true, if_false]
  rw [g1]
  cases hres : updateActivity c (incEntity v (getBlockKey u l 0 b))
      (getActivityKey u l 0) with
  | error e => simp [Except.bind]
  | ok w2 =>
    simp only [Except.bind]
    rw [show (2 : Nat) = 1 + 1 from rfl, updateEventF_succ]
    simp only [hasUpdater, DERIVED_EVENTS, UPDATER_MAPPING, COMPLETED_STATE,
      Bool.not_true, Bool.or_false, Bool.false_eq_true, eq_self_iff_true,
      if_true, if_false]
    rw [g2]
    cases hres2 : updateLesson c w2 (getLessonKey u l) with
    | error e => simp [Except.bind]
    | ok w3 =>
      simp only [Except.bind]
      rw [show (1 : Nat) = 0 + 1 from rfl, updateEventF_succ]
      simp only [hasUpdater, DERIVED_EVENTS, UPDATER_MAPPING, COMPLETED_STATE,
        Bool.not_true, Bool.or_false, Bool.false_eq_true, eq_self_iff_true,
        if_true, if_false]
      cases hx : updateUnit c w3 (getUnitKey u) <;> rfl

/-- The common branch shape of the three derived-update rules always
succeeds. -/
theorem ite_ok (v : PVal) (k : String) (cond : Bool) :
    ∃ w, (if getEntityValue v k = some 2 then (Except.ok v : Except PErr PVal)
      else if cond = true then
        Except.ok (setEntityValue (setEntityValue v k 1) k 2)
      else Except.ok (setEntityValue v k 1)) = .ok w := by
  split
  · exact ⟨_, rfl⟩
  · split <;> exact ⟨_, rfl⟩

/-- The common branch shape of the three derived-update rules is an
`UpdaterStep` at its key. -/
theorem ite_step (v : PVal) (k : String) (cond : Bool) (w : PVal)
    (h : (if getEntityValue v k = some 2 then (Except.ok v : Except PErr PVal)
      else if cond = true then
        Except.ok (setEntityValue (setEntityValue v k 1) k 2)
      else Except.ok (setEntityValue v k 1)) = .ok w) :
    UpdaterStep v w k := by
  by_cases h2 : getEntityValue v k = some 2
  · rw [if_pos h2] at h
    have hvw : v = w := by injection h
    subst hvw
    exact ⟨fun _ _ => rfl, Or.inl rfl⟩
  · rw [if_neg h2] at h
    cases hc : cond with
    | true =>
      rw [hc, if_pos rfl] at h
      have hvw : setEntityValue (setEntityValue v k 1) k 2 = w := by injection h
      subst hvw
      refine ⟨?_, Or.inr ⟨h2, Or.inr ?_⟩⟩
      · intro k2 hk2
        rw [getEntityValue_set, if_neg (fun he => hk2 he.symm),
          getEntityValue_set, if_neg (fun he => hk2 he.symm)]
      · rw [getEntityValue_set, if_pos rfl]
    | false =>
      rw [hc, if_neg (by simp)] at h
      have hvw : setEntityValue v k 1 = w := by injection h
      subst hvw
      refine ⟨?_, Or.inr ⟨h2, Or.inl ?_⟩⟩
      · intro k2 hk2
        rw [getEntityValue_set, if_neg (fun he => hk2 he.symm)]
      · rw [getEntityValue_set, if_pos rfl]

theorem updateActivity_ok (c : Course) (v : PVal) (u l a k : String)
    (hk : pySplitDot k = ["u", u, "l", l, "a", a]) :
    ∃ w, updateActivity c v k = .ok w := by
  rw [updateActivity_char c v u l a k hk]
  exact ite_ok v k _

theorem updateLesson_ok (c : Course) (v : PVal) (u l k : String)
    (hk : pySplitDot k = ["u", u, "l", l]) :
    ∃ w, updateLesson c v k = .ok w := by
  rw [updateLesson_char c v u l k hk]
  exact ite_ok v k _

theorem updateUnit_ok (c : Course) (v : PVal) (u k : String)
    (hk : pySplitDot k = ["u", u]) :
    ∃ w, updateUnit c v k = .ok w := by
  rw [updateUnit_char c v u k hk]
  exact ite_ok v k _

theorem updateActivity_step (c : Course) (v : PVal) (u l a k : String)
    (hk : pySplitDot k = ["u", u, "l", l, "a", a]) (w : PVal)
    (h : updateActivity c v k = .ok w) : UpdaterStep v w k := by
  rw [updateActivity_char c v u l a k hk] at h
  exact ite_step v k _ w h

theorem updateLesson_step (c : Course) (v : PVal) (u l k : String)
    (hk : pySplitDot k = ["u", u, "l", l]) (w : PVal)
    (h : updateLesson c v k = .ok w) : UpdaterStep v w k := by
  rw [updateLesson_char c v u l k hk] at h
  exact ite_step v k _ w h

theorem updateUnit_step (c : Course) (v : PVal) (u k : String)
    (hk : pySplitDot k = ["u", u]) (w : PVal)
    (h : updateUnit c v k = .ok w) : UpdaterStep v w k := by
  rw [updateUnit_char c v u k hk] at h
  exact ite_step v k _ w h

/-! ### Composite shapes of the cascade keys -/

theorem compositeShape_activity (k u l : String)
    (h : pySplitDot k = ["u", u, "l", l, "a", "0"]) :
    compositeShape k = true := by
  unfold compositeShape
  rw [h]
  rfl

theorem compositeShape_lesson (k u l : String)
    (h : pySplitDot k = ["u", u, "l", l]) :
    compositeShape k = true := by
  unfold compositeShape
  rw [h]
  rfl

theorem compositeShape_unit (k u : String) (h : pySplitDot k = ["u", u]) :
    compositeShape k = true := by
  unfold compositeShape
  rw [h]
  rfl

theorem compositeShape_video (k u l : String)
    (h : pySplitDot k = ["u", u, "l", l, "v", "0"]) :
    compositeShape k = false := by
  unfold compositeShape
  rw [h]
  rfl

theorem compositeShape_block (k u l bs : String)
    (h : pySplitDot k = ["u", u, "l", l, "a", "0", "b", bs]) :
    compositeShape k = false := by
  unfold compositeShape
  rw [h]
  rfl

theorem compositeShape_assessment (k a : String)
    (h : pySplitDot k = ["s", a]) :
    compositeShape k = false := by
  unfold compositeShape
  rw [h]
  rfl

/-! ### Invariant preservation and monotonicity of the steps -/

theorem updaterStep_mono_inv (v w : PVal) (k : String)
    (hk : compositeShape k = true) (hInv : ProgressInv v)
    (hs : UpdaterStep v w k) :
    ProgressInv w ∧ ∀ k2, compositeShape k2 = true →
      ov (getEntityValue v k2) ≤ ov (getEntityValue w k2) := by
  obtain ⟨hframe, hval⟩ := hs
  constructor
  · intro k2 n hn
    by_cases he : k2 = k
    · subst he
      rcases hval with heq | ⟨h2, h12⟩
      · exact hInv k2 n (heq ▸ hn)
      · rcases h12 with h1 | h1 <;> rw [h1] at hn <;> injection hn with hn <;>
          subst hn
        · exact ⟨by norm_num, fun _ => by norm_num⟩
        · exact ⟨by norm_num, fun _ => by norm_num⟩
    · rw [hframe k2 he] at hn
      exact hInv k2 n hn
  · intro k2 hk2
    by_cases he : k2 = k
    · subst he
      rcases hval with heq | ⟨h2, h12⟩
      · rw [heq]
      · have hle : ov (getEntityValue v k2) ≤ 1 := by
          cases hv : getEntityValue v k2 with
          | none => simp [ov]
          | some n =>
            have h1n := (hInv k2 n hv).1
            have hn2 : n ≤ 2 := (hInv k2 n hv).2 hk2
            have hne : n ≠ 2 := fun he2 => h2 (by rw [hv, he2])
            simp only [ov, Option.getD_some]
            omega
        rcases h12 with h1 | h1
        · rw [h1]
          simp only [ov, Option.getD_some] at hle ⊢
          omega
        · rw [h1]
          simp only [ov, Option.getD_some] at hle ⊢
          omega
    · rw [hframe k2 he]

theorem inc_mono_inv (v : PVal) (k : String) (hk : compositeShape k = false)
    (hInv : ProgressInv v) :
    ProgressInv (incEntity v k) ∧ ∀ k2, compositeShape k2 = true →
      ov (getEntityValue v k2) ≤ ov (getEntityValue (incEntity v k) k2) := by
  constructor
  · intro k2 n hn
    rw [getEntityValue_inc] at hn
    by_cases he : k = k2
    · rw [if_pos he] at hn
      injection hn with hn
      constructor
      · cases hv : getEntityValue v k with
        | none => rw [hv] at hn; simp at hn; omega
        | some m =>
          have := (hInv k m hv).1
          rw [hv] at hn
          simp at hn
          omega
      · intro hcomp
        rw [he] at hk
        rw [hk] at hcomp
        exact absurd hcomp (by simp)
    · rw [if_neg he] at hn
      exact hInv k2 n hn
  · intro k2 hk2
    rw [getEntityValue_inc, if_neg]
    · intro he
      rw [he, hk2] at hk
      exact absurd hk (by simp)

theorem set2_mono_inv (v : PVal) (k : String) (hk : compositeShape k = true)
    (hInv : ProgressInv v) :
    ProgressInv (setEntityValue v k 2) ∧ ∀ k2, compositeShape k2 = true →
      ov (getEntityValue v k2) ≤ ov (getEntityValue (setEntityValue v k 2) k2) := by
  constructor
  · intro k2 n hn
    rw [getEntityValue_set] at hn
    by_cases he : k = k2
    · rw [if_pos he] at hn
      injection hn with hn
      subst hn
      exact ⟨by norm_num, fun _ => by norm_num⟩
    · rw [if_neg he] at hn
      exact hInv k2 n hn
  · intro k2 hk2
    rw [getEntityValue_set]
    by_cases he : k = k2
    · rw [if_pos he]
      cases hv : getEntityValue v k2 with
      | none => simp [ov]
      | some n =>
        have := (hInv k2 n hv).2 hk2
        simp only [ov, Option.getD_some]
        omega
    · rw [if_neg he]

/-! ### Extracting the well-formedness facts -/

theorem goodHier_spec (c : Course) (u l : String) (h : goodHier c u l = true) :
    pySplitDot (getActivityKey u l 0) = ["u", u, "l", l, "a", "0"] ∧
    pySplitDot (getLessonKey u l) = ["u", u, "l", l] ∧
    pySplitDot (getUnitKey u) = ["u", u] ∧
    generateNewId (getActivityKey u l 0) = getLessonKey u l ∧
    generateNewId (getLessonKey u l) = getUnitKey u ∧
    (∀ i, i < (c.getActivity u l).length →
      pySplitDot (getBlockKey u l 0 i) =
        ["u", u, "l", l, "a", "0", "b", toString i]) ∧
    (∀ L ∈ c.getLessons u, getLessonKey u L.id ≠ getActivityKey u l 0 ∧
      getLessonKey u L.id ≠ getUnitKey u) := by
  simp only [goodHier, Bool.and_eq_true, decide_eq_true_eq, List.all_eq_true,
    List.mem_range] at h
  obtain ⟨⟨⟨⟨⟨⟨h1, h2⟩, h3⟩, h4⟩, h5⟩, h6⟩, h7⟩ := h
  exact ⟨h1, h2, h3, h4, h5, h6, h7⟩

theorem goodBlock_spec (c : Course) (u l : String) (b : Nat)
    (h : GoodOp c (.blockCompleted u l b) = true) :
    goodHier c u l = true ∧
    pySplitDot (getBlockKey u l 0 b) =
      ["u", u, "l", l, "a", "0", "b", toString b] ∧
    generateNewId (getBlockKey u l 0 b) = getActivityKey u l 0 ∧
    (∀ L ∈ c.getLessons u, getLessonKey u L.id ≠ getBlockKey u l 0 b) := by
  simp only [GoodOp, Bool.and_eq_true, decide_eq_true_eq, List.all_eq_true] at h
  obtain ⟨⟨⟨h1, h2⟩, h3⟩, h4⟩ := h
  exact ⟨h1, h2, h3, h4⟩

/-! ### One good operation: success, invariant, monotonicity -/

theorem putActivityCompleted_good (c : Course) (v : PVal) (u l : String)
    (hg : goodHier c u l = true) (hInv : ProgressInv v) :
    ∃ w, putActivityCompleted c v u l = .ok w ∧ ProgressInv w ∧
      (∀ k, compositeShape k = true →
        ov (getEntityValue v k) ≤ ov (getEntityValue w k)) := by
  obtain ⟨hsa, hsl, hsu, hg1, hg2, hblocks, hless⟩ := goodHier_spec c u l hg
  have hcompa := compositeShape_activity _ u l hsa
  have hcompl := compositeShape_lesson _ u l hsl
  have hcompu := compositeShape_unit _ u hsu
  obtain ⟨hInv1, hmono1⟩ :=
    set2_mono_inv v (getActivityKey u l 0) hcompa hInv
  obtain ⟨w2, hw2⟩ := updateLesson_ok c
    (setEntityValue v (getActivityKey u l 0) 2) u l (getLessonKey u l) hsl
  have hstep2 := updateLesson_step c _ u l (getLessonKey u l) hsl w2 hw2
  obtain ⟨hInv2, hmono2⟩ := updaterStep_mono_inv _ w2 _ hcompl hInv1 hstep2
  obtain ⟨w3, hw3⟩ := updateUnit_ok c w2 u (getUnitKey u) hsu
  have hstep3 := updateUnit_step c w2 u (getUnitKey u) hsu w3 hw3
  obtain ⟨hInv3, hmono3⟩ := updaterStep_mono_inv w2 w3 _ hcompu hInv2 hstep3
  refine ⟨w3, ?_, hInv3, ?_⟩
  · rw [putActivity_eq c v u l hg1 hg2, hw2]
    simpa [Except.bind] using hw3
  · intro k hk
    exact le_trans (hmono1 k hk) (le_trans (hmono2 k hk) (hmono3 k hk))

theorem putBlockCompleted_good (c : Course) (v : PVal) (u l : String) (b : Nat)
    (hg : GoodOp c (.blockCompleted u l b) = true) (hInv : ProgressInv v) :
    ∃ w, putBlockCompleted c v u l b = .ok w ∧ ProgressInv w ∧
      (∀ k, compositeShape k = true →
        ov (getEntityValue v k) ≤ ov (getEntityValue w k)) := by
  obtain ⟨hgh, hsb, hg0, hlessb⟩ := goodBlock_spec c u l b hg
  obtain ⟨hsa, hsl, hsu, hg1, hg2, hblocks, hless⟩ := goodHier_spec c u l hgh
  have hcompb := compositeShape_block _ u l (toString b) hsb
  have hcompa := compositeShape_activity _ u l hsa
  have hcompl := compositeShape_lesson _ u l hsl
  have hcompu := compositeShape_unit _ u hsu
  obtain ⟨hInv1, hmono1⟩ := inc_mono_inv v (getBlockKey u l 0 b) hcompb hInv
  obtain ⟨w2, hw2⟩ := updateActivity_ok c
    (incEntity v (getBlockKey u l 0 b)) u l "0" (getActivityKey u l 0) hsa
  have hstep2 := updateActivity_step c _ u l "0" (getActivityKey u l 0) hsa w2 hw2
  obtain ⟨hInv2, hmono2⟩ := updaterStep_mono_inv _ w2 _ hcompa hInv1 hstep2
  obtain ⟨w3, hw3⟩ := updateLesson_ok c w2 u l (getLessonKey u l) hsl
  have hstep3 := updateLesson_step c w2 u l (getLessonKey u l) hsl w3 hw3
  obtain ⟨hInv3, hmono3⟩ := updaterStep_mono_inv w2 w3 _ hcompl hInv2 hstep3
  obtain ⟨w4, hw4⟩ := updateUnit_ok c w3 u (getUnitKey u) hsu
  have hstep4 := updateUnit_step c w3 u (getUnitKey u) hsu w4 hw4
  obtain ⟨hInv4, hmono4⟩ := updaterStep_mono_inv w3 w4 _ hcompu hInv3 hstep4
  refine ⟨w4, ?_, hInv4, ?_⟩
  · rw [putBlock_eq c v u l b hg0 hg1 hg2, hw2]
    simp [Except.bind, hw3]
    simpa [Except.bind] using hw4
  · intro k hk
    exact le_trans (hmono1 k hk) (le_trans (hmono2 k hk)
      (le_trans (hmono3 k hk) (hmono4 k hk)))

theorem applyOp_good_step (c : Course) (v : PVal) (op : Op)
    (hg : GoodOp c op = true) (hInv : ProgressInv v) :
    ∃ w, applyOp c v op = .ok w ∧ ProgressInv w ∧
      (∀ k, compositeShape k = true →
        ov (getEntityValue v k) ≤ ov (getEntityValue w k)) := by
  cases op with
  | videoCompleted u l =>
    have hsplit : pySplitDot (getVideoKey u l 0) = ["u", u, "l", l, "v", "0"] := by
      simpa [GoodOp, decide_eq_true_eq] using hg
    have hcomp := compositeShape_video _ u l hsplit
    obtain ⟨hInv1, hmono1⟩ := inc_mono_inv v (getVideoKey u l 0) hcomp hInv
    exact ⟨_, rfl, hInv1, hmono1⟩
  | assessmentCompleted a =>
    have hsplit : pySplitDot (getAssessmentKey a) = ["s", a] := by
      simpa [GoodOp, decide_eq_true_eq] using hg
    have hcomp := compositeShape_assessment _ a hsplit
    obtain ⟨hInv1, hmono1⟩ := inc_mono_inv v (getAssessmentKey a) hcomp hInv
    exact ⟨_, rfl, hInv1, hmono1⟩
  | activityCompleted u l =>
    have hgh : goodHier c u l = true := by simpa [GoodOp] using hg
    exact putActivityCompleted_good c v u l hgh hInv
  | blockCompleted u l b =>
    exact putBlockCompleted_good c v u l b hg hInv
  | activityAccessed u l =>
    have hgh : goodHier c u l = true := by simpa [GoodOp] using hg
    cases hb : (c.getActivity u l).any isDict with
    | true =>
      refine ⟨v, ?_, hInv, fun k hk => le_refl _⟩
      simp [applyOp, putActivityAccessed, hb]
    | false =>
      obtain ⟨w, hw, hInvw, hmono⟩ := putActivityCompleted_good c v u l hgh hInv
      refine ⟨w, ?_, hInvw, hmono⟩
      simpa [applyOp, putActivityAccessed, hb] using hw

theorem applyOps_good (c : Course) : ∀ (ops : List Op) (v : PVal),
    (∀ op ∈ ops, GoodOp c op = true) → ProgressInv v →
    ∃ w, applyOps c v ops = .ok w ∧ ProgressInv w ∧
      (∀ k, compositeShape k = true →
        ov (getEntityValue v k) ≤ ov (getEntityValue w k)) := by
  intro ops
  induction ops with
  | nil =>
    intro v _ hInv
    exact ⟨v, rfl, hInv, fun k _ => le_refl _⟩
  | cons op rest ih =>
    intro v hg hInv
    obtain ⟨w1, hw1, hInv1, hmono1⟩ :=
      applyOp_good_step c v op (hg op (by simp)) hInv
    obtain ⟨w2, hw2, hInv2, hmono2⟩ :=
      ih w1 (fun op' h' => hg op' (by simp [h'])) hInv1
    refine ⟨w2, ?_, hInv2, fun k hk => le_trans (hmono1 k hk) (hmono2 k hk)⟩
    simp [applyOps, hw1, hw2]

/-- C4: starting from a payload satisfying the reachable-state invariant
(in particular the initial absent payload), across any sequence of
well-formed record-event operations the stored tri-state read of every
composite-shaped key is monotonically non-decreasing: a read after more
events never observes a smaller value than a read after fewer. -/
theorem c4_monotonicity (c : Course) (v0 v1 v2 : PVal) (ops1 ops2 : List Op)
    (hg1 : ∀ op ∈ ops1, GoodOp c op = true)
    (hg2 : ∀ op ∈ ops2, GoodOp c op = true)
    (hInv : ProgressInv v0)
    (h1 : applyOps c v0 ops1 = .ok v1)
    (h2 : applyOps c v1 ops2 = .ok v2) :
    ∀ k, compositeShape k = true →
      ov (getEntityValue v1 k) ≤ ov (getEntityValue v2 k) := by
  obtain ⟨w1, hw1, hInv1, _⟩ := applyOps_good c ops1 v0 hg1 hInv
  have hv1 : w1 = v1 := by
    rw [h1] at hw1
    injection hw1 with h
    exact h.symm
  subst hv1
  obtain ⟨w2, hw2, _, hmono⟩ := applyOps_good c ops2 w1 hg2 hInv1
  have hv2 : w2 = v2 := by
    rw [h2] at hw2
    injection hw2 with h
    exact h.symm
  subst hv2
  exact hmono

/-- Witness for C4: on the sample course, a video event then an
assessment event, starting from the absent payload. -/
theorem c4_witness :
    (∀ op ∈ [Op.videoCompleted "1" "1"], GoodOp sampleCourse op = true) ∧
    (∀ op ∈ [Op.assessmentCompleted "Pre"], GoodOp sampleCourse op = true) ∧
    ProgressInv none ∧
    applyOps sampleCourse none [Op.videoCompleted "1" "1"] =
      .ok (some [("u.1.l.1.v.0", 1)]) ∧
    applyOps sampleCourse (some [("u.1.l.1.v.0", 1)])
      [Op.assessmentCompleted "Pre"] =
      .ok (some [("u.1.l.1.v.0", 1), ("s.Pre", 1)]) ∧
    (∀ k, compositeShape k = true →
      ov (getEntityValue (some [("u.1.l.1.v.0", 1)]) k) ≤
        ov (getEntityValue (some [("u.1.l.1.v.0", 1), ("s.Pre", 1)]) k)) :=
  ⟨by decide, by decide, fun k n h => Option.noConfusion h, by rfl, by rfl,
    c4_monotonicity sampleCourse none (some [("u.1.l.1.v.0", 1)])
      (some [("u.1.l.1.v.0", 1), ("s.Pre", 1)])
      [Op.videoCompleted "1" "1"] [Op.assessmentCompleted "Pre"]
      (by decide) (by decide) (fun k n h => Option.noConfusion h)
      (by rfl) (by rfl)⟩

/-! ### Idempotence of the record-completed operations -/

theorem list_ne_of_length {α : Type} (A B : List α) (h : A.length ≠ B.length) :
    A ≠ B :=
  fun he => h (he ▸ rfl)

/-- After a direct activity-completed cascade, the activity and the
lesson are both COMPLETED. -/
theorem putActivityCompleted_post (c : Course) (v w : PVal) (u l : String)
    (hg : goodHier c u l = true)
    (h : putActivityCompleted c v u l = .ok w) :
    getEntityValue w (getActivityKey u l 0) = some 2 ∧
    getEntityValue w (getLessonKey u l) = some 2 := by
  obtain ⟨hsa, hsl, hsu, hg1, hg2, hblocks, hless⟩ := goodHier_spec c u l hg
  have hne_ak_lk : getActivityKey u l 0 ≠ getLessonKey u l :=
    key_ne _ _ _ _ hsa hsl (list_ne_of_length _ _ (by simp))
  have hne_ak_uk : getActivityKey u l 0 ≠ getUnitKey u :=
    key_ne _ _ _ _ hsa hsu (list_ne_of_length _ _ (by simp))
  have hne_lk_uk : getLessonKey u l ≠ getUnitKey u :=
    key_ne _ _ _ _ hsl hsu (list_ne_of_length _ _ (by simp))
  rw [putActivity_eq c v u l hg1 hg2] at h
  obtain ⟨w2, hL, hU⟩ := except_bind_ok _ _ _ h
  have hw1ak : getEntityValue (setEntityValue v (getActivityKey u l 0) 2)
      (getActivityKey u l 0) = some 2 := by
    rw [getEntityValue_set, if_pos rfl]
  have stepL := updateLesson_step c _ u l (getLessonKey u l) hsl w2 hL
  have stepU := updateUnit_step c w2 u (getUnitKey u) hsu w hU
  have hw2ak : getEntityValue w2 (getActivityKey u l 0) = some 2 := by
    rw [stepL.1 _ hne_ak_lk]
    exact hw1ak
  have hwak : getEntityValue w (getActivityKey u l 0) = some 2 := by
    rw [stepU.1 _ hne_ak_uk]
    exact hw2ak
  refine ⟨hwak, ?_⟩
  have hw2lk : getEntityValue w2 (getLessonKey u l) = some 2 := by
    rw [updateLesson_char c _ u l (getLessonKey u l) hsl] at hL
    by_cases hpos : getEntityValue (setEntityValue v (getActivityKey u l 0) 2)
        (getLessonKey u l) = some 2
    · rw [if_pos hpos] at hL
      have : setEntityValue v (getActivityKey u l 0) 2 = w2 := by injection hL
      rw [← this]
      exact hpos
    · rw [if_neg hpos] at hL
      have hcond : lessonsOk (setEntityValue (setEntityValue v
          (getActivityKey u l 0) 2) (getLessonKey u l) 1) u l
          (c.getLessons u) = true := by
        apply (lessonsOk_eq_true_iff _ u l _).mpr
        intro L hL' h1 h2
        unfold getActivityStatus
        rw [getEntityValue_set, if_neg (fun he => hne_ak_lk he.symm)]
        exact hw1ak
      rw [hcond, if_pos rfl] at hL
      have : setEntityValue (setEntityValue (setEntityValue v
          (getActivityKey u l 0) 2) (getLessonKey u l) 1)
          (getLessonKey u l) 2 = w2 := by injection hL
      rw [← this, getEntityValue_set, if_pos rfl]
  rw [stepU.1 _ hne_lk_uk]
  exact hw2lk

/-- Re-running a direct activity-completed cascade returns the same
payload unchanged. -/
theorem putActivityCompleted_idem (c : Course) (v v1 v2 : PVal) (u l : String)
    (hg : goodHier c u l = true)
    (h1 : putActivityCompleted c v u l = .ok v1)
    (h2 : putActivityCompleted c v1 u l = .ok v2) : v2 = v1 := by
  obtain ⟨hsa, hsl, hsu, hg1, hg2, hblocks, hless⟩ := goodHier_spec c u l hg
  obtain ⟨hak, hlk⟩ := putActivityCompleted_post c v v1 u l hg h1
  rw [putActivity_eq c v1 u l hg1 hg2] at h2
  rw [setEntityValue_same v1 (getActivityKey u l 0) 2 hak] at h2
  have hLid : updateLesson c v1 (getLessonKey u l) = .ok v1 := by
    rw [updateLesson_char c v1 u l (getLessonKey u l) hsl, if_pos hlk]
  rw [hLid] at h2
  simp only [Except.bind] at h2
  -- h2 : updateUnit c v1 (getUnitKey u) = .ok v2; analyse run 1's unit stage
  rw [putActivity_eq c v u l hg1 hg2] at h1
  obtain ⟨w2, hL, hU⟩ := except_bind_ok _ _ _ h1
  rw [updateUnit_char c w2 u (getUnitKey u) hsu] at hU
  by_cases hpos : getEntityValue w2 (getUnitKey u) = some 2
  · rw [if_pos hpos] at hU
    have hw : w2 = v1 := by injection hU
    subst hw
    rw [updateUnit_char c w2 u (getUnitKey u) hsu, if_pos hpos] at h2
    injection h2 with h
    exact h.symm
  · rw [if_neg hpos] at hU
    cases hcond : unitLessonsOk (setEntityValue w2 (getUnitKey u) 1) u
        (c.getLessons u) with
    | true =>
      rw [hcond, if_pos rfl] at hU
      have hw : setEntityValue (setEntityValue w2 (getUnitKey u) 1)
          (getUnitKey u) 2 = v1 := by injection hU
      have huk : getEntityValue v1 (getUnitKey u) = some 2 := by
        rw [← hw, getEntityValue_set, if_pos rfl]
      rw [updateUnit_char c v1 u (getUnitKey u) hsu, if_pos huk] at h2
      injection h2 with h
      exact h.symm
    | false =>
      rw [hcond, if_neg (by simp)] at hU
      have hw : setEntityValue w2 (getUnitKey u) 1 = v1 := by injection hU
      have huk : getEntityValue v1 (getUnitKey u) = some 1 := by
        rw [← hw, getEntityValue_set, if_pos rfl]
      rw [updateUnit_char c v1 u (getUnitKey u) hsu,
        if_neg (by rw [huk]; simp)] at h2
      rw [setEntityValue_same v1 (getUnitKey u) 1 huk] at h2
      rw [← hw] at h2
      rw [hcond, if_neg (by simp)] at h2
      rw [hw] at h2
      injection h2 with h
      exact h.symm

/-- Re-running a block-completed cascade only increments the block
counter again: the second run equals the first run's payload with one
more increment of the block key. -/
theorem putBlockCompleted_idem (c : Course) (v v1 v2 : PVal) (u l : String)
    (b : Nat) (hg : GoodOp c (.blockCompleted u l b) = true)
    (hInv : ProgressInv v)
    (h1 : putBlockCompleted c v u l b = .ok v1)
    (h2 : putBlockCompleted c v1 u l b = .ok v2) :
    v2 = incEntity v1 (getBlockKey u l 0 b) := by
  obtain ⟨hgh, hsb, hg0, hlessb⟩ := goodBlock_spec c u l b hg
  obtain ⟨hsa, hsl, hsu, hg1, hg2, hblocks, hless⟩ := goodHier_spec c u l hgh
  have hne_bk_ak : getBlockKey u l 0 b ≠ getActivityKey u l 0 :=
    key_ne _ _ _ _ hsb hsa (list_ne_of_length _ _ (by simp))
  have hne_bk_lk : getBlockKey u l 0 b ≠ getLessonKey u l :=
    key_ne _ _ _ _ hsb hsl (list_ne_of_length _ _ (by simp))
  have hne_bk_uk : getBlockKey u l 0 b ≠ getUnitKey u :=
    key_ne _ _ _ _ hsb hsu (list_ne_of_length _ _ (by simp))
  have hne_ak_lk : getActivityKey u l 0 ≠ getLessonKey u l :=
    key_ne _ _ _ _ hsa hsl (list_ne_of_length _ _ (by simp))
  have hne_ak_uk : getActivityKey u l 0 ≠ getUnitKey u :=
    key_ne _ _ _ _ hsa hsu (list_ne_of_length _ _ (by simp))
  have hne_lk_uk : getLessonKey u l ≠ getUnitKey u :=
    key_ne _ _ _ _ hsl hsu (list_ne_of_length _ _ (by simp))
  have hne_bkj_ak : ∀ j, j < (c.getActivity u l).length →
      getBlockKey u l 0 j ≠ getActivityKey u l 0 := fun j hj =>
    key_ne _ _ _ _ (hblocks j hj) hsa (list_ne_of_length _ _ (by simp))
  have hne_bkj_lk : ∀ j, j < (c.getActivity u l).length →
      getBlockKey u l 0 j ≠ getLessonKey u l := fun j hj =>
    key_ne _ _ _ _ (hblocks j hj) hsl (list_ne_of_length _ _ (by simp))
  have hne_bkj_uk : ∀ j, j < (c.getActivity u l).length →
      getBlockKey u l 0 j ≠ getUnitKey u := fun j hj =>
    key_ne _ _ _ _ (hblocks j hj) hsu (list_ne_of_length _ _ (by simp))
  -- run 1 decomposition
  rw [putBlock_eq c v u l b hg0 hg1 hg2] at h1
  obtain ⟨x2, hA1, h1r⟩ := except_bind_ok _ _ _ h1
  obtain ⟨x3, hL1, hU1⟩ := except_bind_ok _ _ _ h1r
  have stepA1 := updateActivity_step c _ u l "0" (getActivityKey u l 0) hsa x2 hA1
  have stepL1 := updateLesson_step c x2 u l (getLessonKey u l) hsl x3 hL1
  have stepU1 := updateUnit_step c x3 u (getUnitKey u) hsu v1 hU1
  set x1 := incEntity v (getBlockKey u l 0 b) with hx1
  set y1 := incEntity v1 (getBlockKey u l 0 b) with hy1
  -- reads of v1 at the cascade keys
  have f_ak : getEntityValue v1 (getActivityKey u l 0) =
      getEntityValue x2 (getActivityKey u l 0) := by
    rw [stepU1.1 _ hne_ak_uk, stepL1.1 _ hne_ak_lk]
  have f_lk : getEntityValue v1 (getLessonKey u l) =
      getEntityValue x3 (getLessonKey u l) := by
    rw [stepU1.1 _ hne_lk_uk]
  have f_bkj : ∀ j, j < (c.getActivity u l).length →
      getEntityValue v1 (getBlockKey u l 0 j) =
        getEntityValue x1 (getBlockKey u l 0 j) := by
    intro j hj
    rw [stepU1.1 _ (hne_bkj_uk j hj), stepL1.1 _ (hne_bkj_lk j hj),
      stepA1.1 _ (hne_bkj_ak j hj)]
  have f_bk : getEntityValue v1 (getBlockKey u l 0 b) =
      some ((getEntityValue v (getBlockKey u l 0 b)).getD 0 + 1) := by
    rw [stepU1.1 _ hne_bk_uk, stepL1.1 _ hne_bk_lk, stepA1.1 _ hne_bk_ak,
      hx1, getEntityValue_inc, if_pos rfl]
  -- reads of y1
  have y_ak : getEntityValue y1 (getActivityKey u l 0) =
      getEntityValue x2 (getActivityKey u l 0) := by
    rw [hy1, getEntityValue_inc, if_neg hne_bk_ak, f_ak]
  have y_lk : getEntityValue y1 (getLessonKey u l) =
      getEntityValue x3 (getLessonKey u l) := by
    rw [hy1, getEntityValue_inc, if_neg hne_bk_lk, f_lk]
  have y_uk : getEntityValue y1 (getUnitKey u) =
      getEntityValue v1 (getUnitKey u) := by
    rw [hy1, getEntityValue_inc, if_neg hne_bk_uk]
  -- the block reads of run 2 decide like those of run 1
  have hblockreads : ∀ j, j < (c.getActivity u l).length →
      isBlockCompleted y1 u l j = isBlockCompleted x2 u l j := by
    intro j hj
    unfold isBlockCompleted
    have hx2read : getEntityValue x2 (getBlockKey u l 0 j) =
        getEntityValue x1 (getBlockKey u l 0 j) :=
      stepA1.1 _ (hne_bkj_ak j hj)
    by_cases hbj : getBlockKey u l 0 b = getBlockKey u l 0 j
    · rw [hy1, getEntityValue_inc, if_pos hbj, hx2read, hx1,
        getEntityValue_inc, if_pos hbj]
      show decide ((0:Int) < (getEntityValue v1 (getBlockKey u l 0 b)).getD 0 + 1) =
        decide ((0:Int) < (getEntityValue v (getBlockKey u l 0 b)).getD 0 + 1)
      rw [f_bk]
      simp only [Option.getD_some]
      have hold : (0:Int) ≤ (getEntityValue v (getBlockKey u l 0 b)).getD 0 := by
        cases hv : getEntityValue v (getBlockKey u l 0 b) with
        | none => simp
        | some n =>
          have := (hInv _ n hv).1
          simp only [Option.getD_some]
          omega
      rw [decide_eq_true (by omega :
          (0:Int) < (getEntityValue v (getBlockKey u l 0 b)).getD 0 + 1 + 1),
        decide_eq_true (by omega :
          (0:Int) < (getEntityValue v (getBlockKey u l 0 b)).getD 0 + 1)]
    · rw [hy1, getEntityValue_inc, if_neg hbj, f_bkj j hj, hx2read]
  -- run 2, stage by stage
  have stageA : updateActivity c y1 (getActivityKey u l 0) = .ok y1 := by
    rw [updateActivity_char c y1 u l "0" (getActivityKey u l 0) hsa]
    rw [updateActivity_char c x1 u l "0" (getActivityKey u l 0) hsa] at hA1
    by_cases hpos : getEntityValue x1 (getActivityKey u l 0) = some 2
    · rw [if_pos hpos] at hA1
      have hx : x1 = x2 := by injection hA1
      have : getEntityValue y1 (getActivityKey u l 0) = some 2 := by
        rw [y_ak, ← hx]
        exact hpos
      rw [if_pos this]
    · rw [if_neg hpos] at hA1
      cases hcond : blocksDone (setEntityValue x1 (getActivityKey u l 0) 1)
          u l (c.getActivity u l) 0 with
      | true =>
        rw [hcond, if_pos rfl] at hA1
        have hx : setEntityValue (setEntityValue x1 (getActivityKey u l 0) 1)
            (getActivityKey u l 0) 2 = x2 := by injection hA1
        have : getEntityValue y1 (getActivityKey u l 0) = some 2 := by
          rw [y_ak, ← hx, getEntityValue_set, if_pos rfl]
        rw [if_pos this]
      | false =>
        rw [hcond, if_neg (by simp)] at hA1
        have hx : setEntityValue x1 (getActivityKey u l 0) 1 = x2 := by
          injection hA1
        have hy1ak : getEntityValue y1 (getActivityKey u l 0) = some 1 := by
          rw [y_ak, ← hx, getEntityValue_set, if_pos rfl]
        rw [if_neg (by rw [hy1ak]; simp)]
        rw [setEntityValue_same y1 (getActivityKey u l 0) 1 hy1ak]
        have hsame : blocksDone y1 u l (c.getActivity u l) 0 =
            blocksDone (setEntityValue x1 (getActivityKey u l 0) 1) u l
              (c.getActivity u l) 0 := by
          rw [hx]
          apply blocksDone_congr
          intro j hj
          simpa using hblockreads j (by simpa using hj)
        rw [hsame, hcond, if_neg (by simp)]
  have stageL : updateLesson c y1 (getLessonKey u l) = .ok y1 := by
    rw [updateLesson_char c y1 u l (getLessonKey u l) hsl]
    rw [updateLesson_char c x2 u l (getLessonKey u l) hsl] at hL1
    by_cases hpos : getEntityValue x2 (getLessonKey u l) = some 2
    · rw [if_pos hpos] at hL1
      have hx : x2 = x3 := by injection hL1
      have : getEntityValue y1 (getLessonKey u l) = some 2 := by
        rw [y_lk, ← hx]
        exact hpos
      rw [if_pos this]
    · rw [if_neg hpos] at hL1
      cases hcond : lessonsOk (setEntityValue x2 (getLessonKey u l) 1) u l
          (c.getLessons u) with
      | true =>
        rw [hcond, if_pos rfl] at hL1
        have hx : setEntityValue (setEntityValue x2 (getLessonKey u l) 1)
            (getLessonKey u l) 2 = x3 := by injection hL1
        have : getEntityValue y1 (getLessonKey u l) = some 2 := by
          rw [y_lk, ← hx, getEntityValue_set, if_pos rfl]
        rw [if_pos this]
      | false =>
        rw [hcond, if_neg (by simp)] at hL1
        have hx : setEntityValue x2 (getLessonKey u l) 1 = x3 := by
          injection hL1
        have hy1lk : getEntityValue y1 (getLessonKey u l) = some 1 := by
          rw [y_lk, ← hx, getEntityValue_set, if_pos rfl]
        rw [if_neg (by rw [hy1lk]; simp)]
        rw [setEntityValue_same y1 (getLessonKey u l) 1 hy1lk]
        have hsame : lessonsOk y1 u l (c.getLessons u) =
            lessonsOk (setEntityValue x2 (getLessonKey u l) 1) u l
              (c.getLessons u) := by
          apply lessonsOk_congr
          unfold getActivityStatus
          rw [getEntityValue_set, if_neg (fun he => hne_ak_lk he.symm), y_ak]
        rw [hsame, hcond, if_neg (by simp)]
  have stageU : updateUnit c y1 (getUnitKey u) = .ok y1 := by
    rw [updateUnit_char c y1 u (getUnitKey u) hsu]
    rw [updateUnit_char c x3 u (getUnitKey u) hsu] at hU1
    by_cases hpos : getEntityValue x3 (getUnitKey u) = some 2
    · rw [if_pos hpos] at hU1
      have hx : x3 = v1 := by injection hU1
      have : getEntityValue y1 (getUnitKey u) = some 2 := by
        rw [y_uk, ← hx]
        exact hpos
      rw [if_pos this]
    · rw [if_neg hpos] at hU1
      cases hcond : unitLessonsOk (setEntityValue x3 (getUnitKey u) 1) u
          (c.getLessons u) with
      | true =>
        rw [hcond, if_pos rfl] at hU1
        have hx : setEntityValue (setEntityValue x3 (getUnitKey u) 1)
            (getUnitKey u) 2 = v1 := by injection hU1
        have : getEntityValue y1 (getUnitKey u) = some 2 := by
          rw [y_uk, ← hx, getEntityValue_set, if_pos rfl]
        rw [if_pos this]
      | false =>
        rw [hcond, if_neg (by simp)] at hU1
        have hx : setEntityValue x3 (getUnitKey u) 1 = v1 := by injection hU1
        have hy1uk : getEntityValue y1 (getUnitKey u) = some 1 := by
          rw [y_uk, ← hx, getEntityValue_set, if_pos rfl]
        rw [if_neg (by rw [hy1uk]; simp)]
        rw [setEntityValue_same y1 (getUnitKey u) 1 hy1uk]
        have hsame : unitLessonsOk y1 u (c.getLessons u) =
            unitLessonsOk (setEntityValue x3 (getUnitKey u) 1) u
              (c.getLessons u) := by
          rw [hx]
          apply unitLessonsOk_congr
          intro L hL
          unfold getLessonStatus
          rw [hy1, getEntityValue_inc, if_neg]
          intro he
          exact (hlessb L hL) he.symm
        rw [hsame, hcond, if_neg (by simp)]
  -- assemble run 2
  rw [putBlock_eq c v1 u l b hg0 hg1 hg2, ← hy1, stageA] at h2
  simp only [Except.bind] at h2
  rw [stageL] at h2
  simp only at h2
  rw [stageU] at h2
  injection h2 with h
  exact h.symm

/-- C5: applying a record-completed operation twice with identical
arguments yields the same final progress mapping as applying it once,
except for the operation's own non-composite leaf counter (video, block,
assessment keys), which increments once more; in particular every
composite tri-state key reads the same after the second application as
after the first. -/
theorem c5_record_completed_idempotent (c : Course) (v v1 v2 : PVal)
    (op : Op) (hco : op.isRecordCompleted = true)
    (hg : GoodOp c op = true) (hInv : ProgressInv v)
    (h1 : applyOp c v op = .ok v1) (h2 : applyOp c v1 op = .ok v2) :
    ∀ k, getEntityValue v2 k =
      if op.leafKey = some k then some ((getEntityValue v1 k).getD 0 + 1)
      else getEntityValue v1 k := by
  cases op with
  | activityAccessed u l => simp [Op.isRecordCompleted] at hco
  | videoCompleted u l =>
    have e2 : applyOp c v1 (.videoCompleted u l) =
        .ok (incEntity v1 (getVideoKey u l 0)) := rfl
    rw [e2] at h2
    have hv2 : v2 = incEntity v1 (getVideoKey u l 0) := by
      injection h2 with h
      exact h.symm
    subst hv2
    intro k
    rw [getEntityValue_inc]
    by_cases he : getVideoKey u l 0 = k
    · rw [if_pos he, he]
      simp [Op.leafKey, he]
    · simp [Op.leafKey, he]
  | assessmentCompleted a =>
    have e2 : applyOp c v1 (.assessmentCompleted a) =
        .ok (incEntity v1 (getAssessmentKey a)) := rfl
    rw [e2] at h2
    have hv2 : v2 = incEntity v1 (getAssessmentKey a) := by
      injection h2 with h
      exact h.symm
    subst hv2
    intro k
    rw [getEntityValue_inc]
    by_cases he : getAssessmentKey a = k
    · rw [if_pos he, he]
      simp [Op.leafKey, he]
    · simp [Op.leafKey, he]
  | activityCompleted u l =>
    have hgh : goodHier c u l = true := by simpa [GoodOp] using hg
    have hv2 := putActivityCompleted_idem c v v1 v2 u l hgh h1 h2
    intro k
    rw [hv2]
    simp [Op.leafKey]
  | blockCompleted u l b =>
    have hv2 := putBlockCompleted_idem c v v1 v2 u l b hg hInv h1 h2
    subst hv2
    intro k
    rw [getEntityValue_inc]
    by_cases he : getBlockKey u l 0 b = k
    · rw [if_pos he, he]
      simp [Op.leafKey, he]
    · simp [Op.leafKey, he]

/-- Witness for C5: completing block 0 of unit 1 / lesson 1 twice on the
sample course; the second application only bumps the block counter from 1
to 2 while the activity, lesson and unit stay at 2. -/
theorem c5_witness :
    (Op.blockCompleted "1" "1" 0).isRecordCompleted = true ∧
    GoodOp sampleCourse (.blockCompleted "1" "1" 0) = true ∧
    ProgressInv none ∧
    applyOp sampleCourse none (.blockCompleted "1" "1" 0) =
      .ok (some [("u.1.l.1.a.0.b.0", 1), ("u.1.l.1.a.0", 2),
        ("u.1.l.1", 2), ("u.1", 2)]) ∧
    applyOp sampleCourse
      (some [("u.1.l.1.a.0.b.0", 1), ("u.1.l.1.a.0", 2),
        ("u.1.l.1", 2), ("u.1", 2)]) (.blockCompleted "1" "1" 0) =
      .ok (some [("u.1.l.1.a.0.b.0", 2), ("u.1.l.1.a.0", 2),
        ("u.1.l.1", 2), ("u.1", 2)]) ∧
    (∀ k, getEntityValue (some [("u.1.l.1.a.0.b.0", 2), ("u.1.l.1.a.0", 2),
        ("u.1.l.1", 2), ("u.1", 2)]) k =
      if (Op.blockCompleted "1" "1" 0).leafKey = some k then
        some ((getEntityValue (some [("u.1.l.1.a.0.b.0", 1),
          ("u.1.l.1.a.0", 2), ("u.1.l.1", 2), ("u.1", 2)]) k).getD 0 + 1)
      else getEntityValue (some [("u.1.l.1.a.0.b.0", 1), ("u.1.l.1.a.0", 2),
        ("u.1.l.1", 2), ("u.1", 2)]) k) :=
  ⟨rfl, by decide, fun k n h => Option.noConfusion h, by rfl, by rfl,
    c5_record_completed_idempotent sampleCourse none
      (some [("u.1.l.1.a.0.b.0", 1), ("u.1.l.1.a.0", 2),
        ("u.1.l.1", 2), ("u.1", 2)])
      (some [("u.1.l.1.a.0.b.0", 2), ("u.1.l.1.a.0", 2),
        ("u.1.l.1", 2), ("u.1", 2)])
      (.blockCompleted "1" "1" 0) rfl (by decide)
      (fun k n h => Option.noConfusion h) (by rfl) (by rfl)⟩

/-- Witness for C7's amended statement: an existing record is left
untouched with no write; a missing record triggers the creating write. -/
theorem c7_witness :
    ((StoreState.mk (some (some [("s.Pre", 1)]))).record =
      some (some [("s.Pre", 1)])) ∧
    ((getUnitProgress sampleCourse ⟨some (some [("s.Pre", 1)])⟩).store =
        ⟨some (some [("s.Pre", 1)])⟩ ∧
      (getUnitProgress sampleCourse ⟨some (some [("s.Pre", 1)])⟩).wrote = false ∧
      (getLessonProgress sampleCourse ⟨some (some [("s.Pre", 1)])⟩ "1").store =
        ⟨some (some [("s.Pre", 1)])⟩ ∧
      (getLessonProgress sampleCourse ⟨some (some [("s.Pre", 1)])⟩ "1").wrote =
        false) ∧
    ((StoreState.mk none).record = none) ∧
    ((getUnitProgress sampleCourse ⟨none⟩).wrote = true ∧
      (getUnitProgress sampleCourse ⟨none⟩).store = { record := some (some []) } ∧
      (∀ k, getEntityValue (some []) k = none)) :=
  ⟨rfl,
    (c7_queries_readonly sampleCourse ⟨some (some [("s.Pre", 1)])⟩ "1").2.2.1
      (some [("s.Pre", 1)]) rfl,
    rfl,
    (c7_queries_readonly sampleCourse ⟨none⟩ "1").2.2.2 rfl⟩

end Progress
